import Mathlib

/-!
Verification development for the html-to-image tree-cloning and
resource-embedding traversal engine (src/es/clone-node, src/es/embed-images,
src/src/index).

The DOM-facing code is shallowly embedded: nodes become an inductive tree
(`Node`), clones become `CTree`, the mutable traversal context threaded
through the recursion becomes explicit state (`St`), exceptions become
`Except AbortReason`, and `Date.now()` becomes a clock oracle `clk : Nat → Nat`
read at an explicit call index.  JavaScript truthiness of the numeric options
(`maxNodes`, `timeout`, `_startTime`, `totalNodes`) is modelled by treating
`0` as "disabled", exactly as `if (options.maxNodes && ...)` does.
-/

set_option linter.unusedTactic false
set_option linter.unnecessarySeqFocus false

namespace HtmlToImage

/-- Closed classification of the node categories the cloner dispatches on
(`isInstanceOfElement(node, HTMLCanvasElement/…)`, `isSlotElement`,
`isSVGElement`, plus the form-state tags used by `decorate` and the `use`
tag scanned by `ensureSVGSymbols`).  `text` stands for character-data nodes
(whose `tagName` is null), `div` for any other ordinary element, `img` for
the tag of a `createImage` result, `defs` for the definition container the
symbol pass synthesizes. -/
inductive Tag where
  | div
  | body
  | text
  | canvas
  | video
  | iframe
  | slot
  | svg
  | use
  | textarea
  | input
  | select
  | img
  | defs
deriving DecidableEq, Repr

/-- Per-node payload: the fields of a source node that the cloning engine
reads.  `canvasData` is the canvas's `toDataURL()` result (`"data:,"` when
the surface is blank), `canvasChunked` the encode produced by the chunked
`OffscreenCanvas` path, `videoFrame` the data URL of the drawn current
frame, `value` the form-control value, `useHref` the `xlink:href`
attribute of a `use` element, `selId` the CSS id selector this element
matches (`'#' + id`; empty when the element carries no id, as for every
element created by the engine itself). -/
structure NData where
  tag : Tag
  value : String := ""
  canvasData : String := ""
  canvasChunked : String := ""
  canvasW : Nat := 0
  canvasH : Nat := 0
  videoHasSrc : Bool := false
  videoFrame : String := ""
  poster : String := ""
  useHref : Option String := none
  selId : String := ""
deriving DecidableEq, Repr

/-- A source DOM node: payload, `contentDocument.body` for frame-like nodes
(empty list when the nested document is inaccessible, one element
otherwise), an attached shadow root (`hasShadow`/`shadow`), slot-assigned
nodes, and ordinary light children. -/
inductive Node where
  | mk (nd : NData) (frameBody : List Node) (hasShadow : Bool)
      (shadow : List Node) (assigned : List Node) (children : List Node)

def Node.nd : Node → NData
  | .mk d _ _ _ _ _ => d

def Node.frameBody : Node → List Node
  | .mk _ fb _ _ _ _ => fb

def Node.hasShadow : Node → Bool
  | .mk _ _ hs _ _ _ => hs

def Node.shadow : Node → List Node
  | .mk _ _ _ sh _ _ => sh

def Node.assigned : Node → List Node
  | .mk _ _ _ _ asg _ => asg

def Node.children : Node → List Node
  | .mk _ _ _ _ _ cs => cs

mutual

/-- Size measure for termination of the traversal. -/
def Node.size : Node → Nat
  | .mk _ fb _ sh asg cs =>
      1 + Node.sizeL fb + Node.sizeL sh + Node.sizeL asg + Node.sizeL cs

def Node.sizeL : List Node → Nat
  | [] => 0
  | n :: t => 1 + Node.size n + Node.sizeL t

end

/-- A cloned node: a structural element clone carrying the source payload, a
still image produced by `createImage`, or a character-data node. -/
inductive CTree where
  | elem (nd : NData) (children : List CTree)
  | img (src : String) (children : List CTree)
  | text (s : String)

/-- Variant of `AbortReason` carried by `CaptureAbortedError`. -/
inductive AbortReason where
  | timeout
  | max_nodes
deriving DecidableEq, Repr

/-- Mutable `CloneContext` (`_context`): processed-node counter, timestamp of
the last yield, estimated total node count.  `totalNodes = 0` models the
falsy undefined/zero cases of `context.totalNodes`. -/
structure Ctx where
  nodeCount : Nat
  lastYieldTime : Option Nat
  totalNodes : Nat
deriving DecidableEq, Repr

/-- Program state threaded through the traversal: the optional context, the
clock call index (`Date.now()` returns `clk clkIdx` and bumps the index),
and the trace of `(processed, total)` pairs passed to `onProgress`. -/
structure St where
  ctx : Option Ctx
  clkIdx : Nat
  events : List (Nat × Nat)
deriving DecidableEq, Repr

/-- Immutable per-call `Options` snapshot.  `maxNodes = 0` and `timeout = 0`
model the disabled (falsy) configurations; `startTime` is the internal
`_startTime`; `hasOnProgress` records whether an `onProgress` callback was
supplied; `offscreenSupported` models `'OffscreenCanvas' in window`;
`resolver` is the external `resourceToDataURL` collaborator; `clk` is the
wall clock sampled by `Date.now()`.

`symbolDefs` models the live document outside the captured subtree as seen
by `ensureSVGSymbols`: the association from a CSS id selector (the raw
`xlink:href` value of a `use` element) to the definition element that
`document.querySelector(id)` finds, absent ids omitted.  `defsDepth`
bounds the depth of symbol-definition resolution: the source's recursion
`ensureSVGSymbols → cloneNode → ensureSVGSymbols` follows the document's
symbol-reference graph and is not well-founded (on a cyclic graph the
source diverges and never returns), so the embedding carries this fuel —
every terminating run of the source is reproduced verbatim at any
`defsDepth` larger than the document's longest symbol-reference chain,
and fuel exhaustion behaves like a failed lookup. -/
structure Opts where
  nonBlocking : Bool := false
  maxNodes : Nat := 0
  timeout : Nat := 0
  yieldEvery : Option Nat := none
  yieldBudget : Option Nat := none
  hasOnProgress : Bool := false
  startTime : Option Nat := none
  filter : Option (Node → Bool) := none
  offscreenSupported : Bool := true
  resolver : String → String := fun _ => ""
  clk : Nat → Nat := fun _ => 0
  symbolDefs : List (String × Node) := []
  defsDepth : Nat := 0

/-- Truthiness of a numeric option: JavaScript `if (n)` with `0` and
`undefined` both falsy. -/
def truthyN (n : Nat) : Bool := n != 0

/-- Truthiness of `options._startTime`: present and nonzero. -/
def truthyOpt (x : Option Nat) : Bool := x.getD 0 != 0

/-- Date.now(): read the clock oracle at the current call index. -/
def dateNow (o : Opts) (st : St) : Nat × St :=
  (o.clk st.clkIdx, { st with clkIdx := st.clkIdx + 1 })

namespace CloneNode

/-- checkLimits(options) from clone-node: throw `max_nodes` when a node cap
is configured, a context exists and the counter has reached the cap; else
throw `timeout` when a timeout and a (truthy) start time are configured and
`Date.now() - _startTime ≥ timeout`.  The node-count check is evaluated
first. -/
def checkLimits (o : Opts) (st : St) : Except AbortReason Unit × St :=
  let nodeHit : Bool :=
    truthyN o.maxNodes &&
      (match st.ctx with
       | some c => decide (o.maxNodes ≤ c.nodeCount)
       | none => false)
  if nodeHit then (.error .max_nodes, st)
  else if truthyN o.timeout && truthyOpt o.startTime then
    let (now, st1) := dateNow o st
    if (o.timeout : Int) ≤ (now : Int) - (o.startTime.getD 0 : Int) then
      (.error .timeout, st1)
    else (.ok (), st1)
  else (.ok (), st)

/-- maybeYieldToMain(options) from clone-node — the Governor tick.  Returns
`true` when the tick suspended (awaited `yieldToMain`).  Effects in source
order: early return unless `nonBlocking` and a context; increment
`nodeCount`; `checkLimits`; invoke `onProgress(nodeCount, totalNodes)` when
both are available; decide suspension (time-based when `yieldBudget` is
set, else `nodeCount % (yieldEvery ?? 50) === 0`; a `yieldEvery` of `0`
never suspends, as in JS where `n % 0` is `NaN`); on suspension store
`Date.now()` into `lastYieldTime` before deferring. -/
def maybeYieldToMain (o : Opts) (st : St) : Except AbortReason Bool × St :=
  if !o.nonBlocking then (.ok false, st)
  else
    match st.ctx with
    | none => (.ok false, st)
    | some c =>
      let c1 : Ctx := { c with nodeCount := c.nodeCount + 1 }
      let st1 : St := { st with ctx := some c1 }
      match checkLimits o st1 with
      | (.error e, st2) => (.error e, st2)
      | (.ok _, st2) =>
        let st3 : St :=
          if o.hasOnProgress && truthyN c1.totalNodes then
            { st2 with events := st2.events ++ [(c1.nodeCount, c1.totalNodes)] }
          else st2
        match o.yieldBudget with
        | some budget =>
          let (now, st4) := dateNow o st3
          let (base, st5) :=
            match c1.lastYieldTime with
            | some t => (t, st4)
            | none =>
              match o.startTime with
              | some s => (s, st4)
              | none => dateNow o st4
          if (budget : Int) ≤ (now : Int) - (base : Int) then
            let (now2, st6) := dateNow o st5
            (.ok true, { st6 with ctx := some { c1 with lastYieldTime := some now2 } })
          else (.ok false, st5)
        | none =>
          let yieldEvery := o.yieldEvery.getD 50
          if c1.nodeCount % yieldEvery == 0 then
            let (now2, st6) := dateNow o st3
            (.ok true, { st6 with ctx := some { c1 with lastYieldTime := some now2 } })
          else (.ok false, st3)

/-- Children source selected by cloneChildren: assigned nodes for slots, the
nested document body's child nodes for frames with an accessible body, else
the shadow root's children when attached, else the light children. -/
def childrenSource : Node → List Node
  | .mk nd [] hs sh asg cs =>
      if nd.tag = Tag.slot then asg else if hs then sh else cs
  | .mk nd (b :: _) hs sh asg cs =>
      if nd.tag = Tag.slot then asg
      else if nd.tag = Tag.iframe then b.children
      else if hs then sh else cs

mutual

/-- Native `node.cloneNode(true)` on the clone side: a deep structural copy
of the light tree, performed without filter, Governor or decoration (used
for `svg` roots). -/
def deepCopy : Node → CTree
  | .mk nd _ _ _ _ cs => .elem nd (deepCopyL cs)

def deepCopyL : List Node → List CTree
  | [] => []
  | n :: t => deepCopy n :: deepCopyL t

end

/-- cloneCanvasElement: blank canvases (`toDataURL() === 'data:,'`) get a
shallow structural clone; otherwise the canvas becomes a still image.  The
pixel area / `OffscreenCanvas` branch selects between the synchronous
encode and the chunked encode (whose pixel-level agreement is proved in the
`Chunk` section below). -/
def cloneCanvasElement (o : Opts) (nd : NData) (st : St) :
    Except AbortReason CTree × St :=
  if nd.canvasData = "data:," then (.ok (.elem nd []), st)
  else if nd.canvasW * nd.canvasH ≤ 500000 ∨ o.offscreenSupported = false then
    (.ok (.img nd.canvasData []), st)
  else (.ok (.img nd.canvasChunked []), st)

/-- cloneVideoElement: with a `currentSrc`, draw the current frame and use
the resulting still image; otherwise resolve the poster through the
external resource resolver. -/
def cloneVideoElement (o : Opts) (nd : NData) (st : St) :
    Except AbortReason CTree × St :=
  if nd.videoHasSrc then (.ok (.img nd.videoFrame []), st)
  else (.ok (.img (o.resolver nd.poster) []), st)

mutual

/-- Element descendants of a clone with tag `use`, in document order — the
result of `clone.querySelectorAll('use')` including the element itself
(`usesOf` below restricts to proper descendants, as `querySelectorAll`
does). -/
def usesIn : CTree → List NData
  | .elem nd cs => (if nd.tag = Tag.use then [nd] else []) ++ usesInL cs
  | .img _ cs => usesInL cs
  | .text _ => []

def usesInL : List CTree → List NData
  | [] => []
  | c :: t => usesIn c ++ usesInL t

end

/-- Result of `clone.querySelectorAll('use')`: use-tagged proper
descendants of the clone. -/
def usesOf : CTree → List NData
  | .elem _ cs => usesInL cs
  | .img _ cs => usesInL cs
  | .text _ => []

mutual

/-- Truthiness of `element.querySelector(id)` over a clone subtree rooted at
this node (the node itself included): some element of the subtree matches
the id selector. -/
def existsSel : CTree → String → Bool
  | .elem nd cs, id => decide (nd.selId = id) || existsSelL cs id
  | .img _ cs, id => existsSelL cs id
  | .text _, _ => false

def existsSelL : List CTree → String → Bool
  | [], _ => false
  | c :: t, id => existsSel c id || existsSelL t id

end

/-- Truthiness of `clone.querySelector(id)`: `querySelector` matches proper
descendants only, not the element it is called on. -/
def querySelectorHit (c : CTree) (id : String) : Bool :=
  match c with
  | .elem _ cs => existsSelL cs id
  | .img _ cs => existsSelL cs id
  | .text _ => false

/-- `document.querySelector(id)` during symbol resolution: look the id
selector up in the modelled document's definition table. -/
def symbolLookup (o : Opts) (id : String) : Option Node :=
  (o.symbolDefs.find? fun p => p.1 == id).map Prod.snd

/-- Tag of a clone (`clonedNode.tagName`): the payload tag for element
clones, `img` for `createImage` results, `text` for character data. -/
def cTag : CTree → Tag
  | .elem nd _ => nd.tag
  | .img _ _ => Tag.img
  | .text _ => Tag.text

/-- appendChild of a list of cloned children onto a clone. -/
def appendChildren : CTree → List CTree → CTree
  | .elem nd cs, l => .elem nd (cs ++ l)
  | .img s cs, l => .img s (cs ++ l)
  | .text s, _ => .text s

/-- setChildren replaces a clone's children (the effect of assigning
`innerHTML`). -/
def setChildren : CTree → List CTree → CTree
  | .elem nd _, l => .elem nd l
  | .img s _, l => .img s l
  | .text s, _ => .text s

/-- decorate: `cloneCSSStyle` and `clonePseudoElements` copy style text only
(the per-property value adjustments are modelled by `cloneCSSStyle` in the
style section); `cloneInputValue` rewrites a TEXTAREA clone's content to
the control value (`innerHTML = value`, modelled as one text child) and
copies an INPUT's value attribute (no tree-shape effect; the payload
already carries `value`); `cloneSelectValue` flags the selected option's
attribute (no tree-shape effect). -/
def decorate (n : Node) (c : CTree) : CTree :=
  if n.nd.tag = Tag.textarea then setChildren c [CTree.text n.nd.value] else c

theorem Node.size_pos (n : Node) : 0 < Node.size n := by
  cases n with
  | mk nd fb hs sh asg cs =>
    simp only [Node.size]
    omega

theorem Node.sizeL_children_lt_size (n : Node) : Node.sizeL n.children < Node.size n := by
  cases n with
  | mk nd fb hs sh asg cs => simp [Node.children, Node.size] <;> omega

theorem Node.childrenSource_sizeL_lt (n : Node) :
    Node.sizeL (childrenSource n) < Node.size n := by
  cases n with
  | mk nd fb hs sh asg cs =>
    have hb : ∀ b : Node, Node.sizeL b.children < Node.size b :=
      fun b => Node.sizeL_children_lt_size b
    cases fb with
    | nil =>
      simp only [childrenSource, Node.size]
      split_ifs <;> simp [Node.sizeL] <;> omega
    | cons b fbt =>
      have hbb := hb b
      simp only [childrenSource, Node.size]
      split_ifs <;> simp [Node.sizeL] <;> omega

mutual

/-- cloneNode(node, options, isRoot): the per-node pipeline
Filter → cloneSingleNode → cloneChildren → decorate → ensureSVGSymbols.
Returns `none` ("absent") when a configured filter rejects a non-root
node. -/
def cloneNode (o : Opts) (isRoot : Bool) (n : Node) (st : St) :
    Except AbortReason (Option CTree) × St :=
  if !isRoot && (match o.filter with | some f => !f n | none => false) then
    (.ok none, st)
  else
    match cloneSingleNode o n st with
    | (.error e, st1) => (.error e, st1)
    | (.ok c, st1) =>
      match cloneChildren o n c st1 with
      | (.error e, st2) => (.error e, st2)
      | (.ok c2, st2) =>
        let c3 := decorate n c2
        match ensureSVGSymbols o c3 st2 with
        | (.error e, st3) => (.error e, st3)
        | (.ok c4, st3) => (.ok (some c4), st3)
termination_by (o.defsDepth, Node.size n, 2)
decreasing_by
  all_goals simp_wf
  all_goals first
    | (apply Prod.Lex.left; omega)
    | (apply Prod.Lex.right
       first
         | (apply Prod.Lex.left
            first
              | apply Node.childrenSource_sizeL_lt
              | apply Node.size_pos
              | (simp [Node.size, Node.sizeL]; omega))
         | (apply Prod.Lex.right; omega)
         | (apply Prod.Lex.right; simp)
         | omega
         | (simp [Node.size, Node.sizeL]; omega))
    | (simp [Node.size, Node.sizeL]; omega)
    | omega

/-- cloneSingleNode dispatch: canvas → still image, video → still image,
iframe → recursive clone of the nested document body as a sub-root with
every failure (abort signals included — the source `catch` is
indiscriminate) degrading to a shallow clone of the frame element, svg →
native deep copy, default → shallow structural clone. -/
def cloneSingleNode (o : Opts) (n : Node) (st : St) :
    Except AbortReason CTree × St :=
  match n with
  | .mk nd fb _ _ _ _ =>
    if nd.tag = Tag.canvas then cloneCanvasElement o nd st
    else if nd.tag = Tag.video then cloneVideoElement o nd st
    else if nd.tag = Tag.iframe then
      match fb with
      | b :: _ =>
        match cloneNode o true b st with
        | (.error _, st1) => (.ok (.elem nd []), st1)
        | (.ok (some c), st1) => (.ok c, st1)
        | (.ok none, st1) => (.ok (.elem nd []), st1)
      | [] => (.ok (.elem nd []), st)
    else if nd.tag = Tag.svg then (.ok (deepCopy n), st)
    else (.ok (.elem nd []), st)
termination_by (o.defsDepth, Node.size n, 1)
decreasing_by
  all_goals simp_wf
  all_goals first
    | (apply Prod.Lex.left; omega)
    | (apply Prod.Lex.right
       first
         | (apply Prod.Lex.left
            first
              | apply Node.childrenSource_sizeL_lt
              | apply Node.size_pos
              | (simp [Node.size, Node.sizeL]; omega))
         | (apply Prod.Lex.right; omega)
         | (apply Prod.Lex.right; simp)
         | omega
         | (simp [Node.size, Node.sizeL]; omega))
    | (simp [Node.size, Node.sizeL]; omega)
    | omega

/-- cloneChildren: early return for svg clones and video sources or when the
selected children list is empty; otherwise tick before each child, clone
it, and append it unless the recursive call returned "absent". -/
def cloneChildren (o : Opts) (n : Node) (c : CTree) (st : St) :
    Except AbortReason CTree × St :=
  if cTag c = Tag.svg then (.ok c, st)
  else
    let children := childrenSource n
    if children.isEmpty || n.nd.tag = Tag.video then (.ok c, st)
    else
      match cloneList o children st with
      | (.error e, st1) => (.error e, st1)
      | (.ok l, st1) => (.ok (appendChildren c l), st1)
termination_by (o.defsDepth, Node.size n, 1)
decreasing_by
  all_goals simp_wf
  all_goals first
    | (apply Prod.Lex.left; omega)
    | (apply Prod.Lex.right
       first
         | (apply Prod.Lex.left
            first
              | apply Node.childrenSource_sizeL_lt
              | apply Node.size_pos
              | (simp [Node.size, Node.sizeL]; omega))
         | (apply Prod.Lex.right; omega)
         | (apply Prod.Lex.right; simp)
         | omega
         | (simp [Node.size, Node.sizeL]; omega))
    | (simp [Node.size, Node.sizeL]; omega)
    | omega

/-- Child loop of cloneChildren: `await maybeYieldToMain(options)` then
`await cloneNode(child, options)`, appending non-absent results. -/
def cloneList (o : Opts) (l : List Node) (st : St) :
    Except AbortReason (List CTree) × St :=
  match l with
  | [] => (.ok [], st)
  | ch :: rest =>
    match maybeYieldToMain o st with
    | (.error e, st1) => (.error e, st1)
    | (.ok _, st1) =>
      match cloneNode o false ch st1 with
      | (.error e, st2) => (.error e, st2)
      | (.ok none, st2) => cloneList o rest st2
      | (.ok (some cc), st2) =>
        match cloneList o rest st2 with
        | (.error e, st3) => (.error e, st3)
        | (.ok restC, st3) => (.ok (cc :: restC), st3)
termination_by (o.defsDepth, Node.sizeL l, 3)
decreasing_by
  all_goals simp_wf
  all_goals first
    | (apply Prod.Lex.left; omega)
    | (apply Prod.Lex.right
       first
         | (apply Prod.Lex.left
            first
              | apply Node.childrenSource_sizeL_lt
              | apply Node.size_pos
              | (simp [Node.size, Node.sizeL]; omega))
         | (apply Prod.Lex.right; omega)
         | (apply Prod.Lex.right; simp)
         | omega
         | (simp [Node.size, Node.sizeL]; omega))
    | (simp [Node.size, Node.sizeL]; omega)
    | omega

/-- The `for` loop of ensureSVGSymbols over the collected `use` elements:
one Governor tick per element (`await maybeYieldToMain(options)`), then
`const id = use.getAttribute('xlink:href')`; when `id` is truthy, compute
`exist = clone.querySelector(id)` and
`definition = document.querySelector(id)`, and when
`!exist && definition && !processedDefs[id]` clone the definition as a
sub-root (`cloneNode(definition, options, true)`) and record it under its
id — insertion-ordered, as `Object.values` of a string-keyed object is.
A tick abort or an abort inside the definition clone propagates (the loop
has no handler).  The recursive `cloneNode` follows the document's symbol
graph, which the source does not bound (see `Opts.defsDepth`): resolution
is skipped when the fuel is exhausted, exactly as if the lookup had
failed.  The `.ok none` arm is unreachable — a sub-root clone is never
filtered — and skips like the source's non-null assertion would. -/
def ensureLoop (o : Opts) (c : CTree) (uses : List NData)
    (processed : List (String × CTree)) (st : St) :
    Except AbortReason (List (String × CTree)) × St :=
  match uses with
  | [] => (.ok processed, st)
  | u :: rest =>
    match maybeYieldToMain o st with
    | (.error e, st1) => (.error e, st1)
    | (.ok _, st1) =>
      match u.useHref with
      | none => ensureLoop o c rest processed st1
      | some id =>
        if id = "" then ensureLoop o c rest processed st1
        else
          match symbolLookup o id with
          | none => ensureLoop o c rest processed st1
          | some definition =>
            if !querySelectorHit c id &&
                (processed.find? fun p => p.1 == id).isNone then
              if h : 0 < o.defsDepth then
                match cloneNode { o with defsDepth := o.defsDepth - 1 } true
                    definition st1 with
                | (.error e, st2) => (.error e, st2)
                | (.ok none, st2) => ensureLoop o c rest processed st2
                | (.ok (some dc), st2) =>
                  ensureLoop o c rest (processed ++ [(id, dc)]) st2
              else ensureLoop o c rest processed st1
            else ensureLoop o c rest processed st1
termination_by (o.defsDepth, 0, uses.length)
decreasing_by
  all_goals simp_wf
  all_goals first
    | (apply Prod.Lex.left; omega)
    | (apply Prod.Lex.right
       first
         | (apply Prod.Lex.left
            first
              | apply Node.childrenSource_sizeL_lt
              | apply Node.size_pos
              | (simp [Node.size, Node.sizeL]; omega))
         | (apply Prod.Lex.right; omega)
         | (apply Prod.Lex.right; simp)
         | omega
         | (simp [Node.size, Node.sizeL]; omega))
    | (simp [Node.size, Node.sizeL]; omega)
    | omega

/-- ensureSVGSymbols: collect the clone's `use` descendants
(`clone.querySelectorAll('use')`) and return the clone unchanged when
there are none; otherwise run the resolution loop and — when at least one
definition was cloned — synthesize the hidden container (an `svg` element
holding a `defs` element with the cloned definitions appended in order)
and `clone.appendChild` it.  The container elements are created by the
engine (`document.createElementNS`), so their payloads carry no source
data; their inline positioning/visibility styles are presentation-only and
outside the payload model. -/
def ensureSVGSymbols (o : Opts) (c : CTree) (st : St) :
    Except AbortReason CTree × St :=
  let uses := usesOf c
  if uses.isEmpty then (.ok c, st)
  else
    match ensureLoop o c uses [] st with
    | (.error e, st1) => (.error e, st1)
    | (.ok processed, st1) =>
      let nodes := processed.map Prod.snd
      if nodes.isEmpty then (.ok c, st1)
      else
        (.ok (appendChildren c
          [.elem { tag := Tag.svg } [.elem { tag := Tag.defs } nodes]]), st1)
termination_by (o.defsDepth, 0, (usesOf c).length + 1)
decreasing_by
  all_goals simp_wf
  all_goals first
    | (apply Prod.Lex.left; omega)
    | (apply Prod.Lex.right
       first
         | (apply Prod.Lex.left
            first
              | apply Node.childrenSource_sizeL_lt
              | apply Node.size_pos
              | (simp [Node.size, Node.sizeL]; omega))
         | (apply Prod.Lex.right; omega)
         | (apply Prod.Lex.right; simp)
         | omega
         | (simp [Node.size, Node.sizeL]; omega))
    | (simp [Node.size, Node.sizeL]; omega)
    | omega

end

end CloneNode

/-- Modelled from the spec: `isDataUrl` (module `dataurl`, which is not under
src/) — whether a resource URL is already an inline/data representation
requiring no external fetch. -/
def isDataUrl (s : String) : Bool := s.startsWith "data:"

namespace EmbedImages

/-- maybeYieldToMain(options) from embed-images — the Governor tick of the
resource-embedding phase.  Identical to the clone-node tick except that it
performs no `checkLimits` call, so it can never abort.  Returns `true` when
the tick suspended. -/
def maybeYieldToMain (o : Opts) (st : St) : Bool × St :=
  if !o.nonBlocking then (false, st)
  else
    match st.ctx with
    | none => (false, st)
    | some c =>
      let c1 : Ctx := { c with nodeCount := c.nodeCount + 1 }
      let st1 : St := { st with ctx := some c1 }
      let st2 : St :=
        if o.hasOnProgress && truthyN c1.totalNodes then
          { st1 with events := st1.events ++ [(c1.nodeCount, c1.totalNodes)] }
        else st1
      match o.yieldBudget with
      | some budget =>
        let (now, st3) := dateNow o st2
        let (base, st4) :=
          match c1.lastYieldTime with
          | some t => (t, st3)
          | none =>
            match o.startTime with
            | some s => (s, st3)
            | none => dateNow o st3
        if (budget : Int) ≤ (now : Int) - (base : Int) then
          let (now2, st5) := dateNow o st4
          (true, { st5 with ctx := some { c1 with lastYieldTime := some now2 } })
        else (false, st4)
      | none =>
        let yieldEvery := o.yieldEvery.getD 50
        if c1.nodeCount % yieldEvery == 0 then
          let (now2, st5) := dateNow o st2
          (true, { st5 with ctx := some { c1 with lastYieldTime := some now2 } })
        else (false, st2)

mutual

/-- embedImages(clonedNode, options) over the clone: per element, embed the
background/mask declarations (inline style state is carried at the
`EmbedModel` level below; on `CTree` the only embeddable per-element
resource is a still image's own `src`, handled as `embedImageNode` does —
skipped when already a data URL, else resolved through the external
resolver), then recurse into the children with one Governor tick before
each child.  Character-data nodes are not Elements and are skipped. -/
def embedImages (o : Opts) (c : CTree) (st : St) : CTree × St :=
  match c with
  | .text s => (.text s, st)
  | .elem nd cs =>
    let (cs1, st1) := embedChildren o cs st
    (.elem nd cs1, st1)
  | .img s cs =>
    let s1 := if isDataUrl s then s else o.resolver s
    let (cs1, st1) := embedChildren o cs st
    (.img s1 cs1, st1)

/-- embedChildren: tick, then embed, for each child in order. -/
def embedChildren (o : Opts) (l : List CTree) (st : St) : List CTree × St :=
  match l with
  | [] => ([], st)
  | c :: t =>
    let (_, st1) := maybeYieldToMain o st
    let (c1, st2) := embedImages o c st1
    let (t1, st3) := embedChildren o t st2
    (c1 :: t1, st3)

end

end EmbedImages

namespace Index

mutual

/-- Element count used by `node.querySelectorAll('*').length`: element
descendants of the light tree (character data is not matched by `'*'`;
the selector does not pierce shadow roots or nested documents). -/
def countElems : Node → Nat
  | .mk nd _ _ _ _ cs => (if nd.tag = Tag.text then 0 else 1) + countElemsL cs

def countElemsL : List Node → Nat
  | [] => 0
  | n :: t => countElems n + countElemsL t

end

/-- estimateDOMComplexity(node): `node.querySelectorAll('*').length + 1`. -/
def estimateDOMComplexity (n : Node) : Nat := countElemsL n.children + 1

/-- initializeOptions(node, options): when `nonBlocking`, `maxNodes`,
`timeout` or `onProgress` is configured, build the traversal context with
`totalNodes = Math.floor(domNodes * 2.5)`, `lastYieldTime = Date.now()` and
`_startTime = Date.now()` (two clock reads, indices 0 and 1). -/
def initializeOptions (o : Opts) (n : Node) : Opts × St :=
  if o.nonBlocking || truthyN o.maxNodes || truthyN o.timeout || o.hasOnProgress then
    let domNodes := estimateDOMComplexity n
    let estimatedTotalOps := 5 * domNodes / 2
    let t0 := o.clk 0
    let t1 := o.clk 1
    ({ o with startTime := some t1 },
     { ctx := some { nodeCount := 0, lastYieldTime := some t0, totalNodes := estimatedTotalOps },
       clkIdx := 2, events := [] })
  else (o, { ctx := none, clkIdx := 0, events := [] })

/-- checkDOMComplexity(node, options): pre-flight abort with `max_nodes` when
a node cap is configured and the estimated node count exceeds it. -/
def checkDOMComplexity (o : Opts) (n : Node) : Except AbortReason Unit :=
  if truthyN o.maxNodes && decide (o.maxNodes < estimateDOMComplexity n) then
    .error .max_nodes
  else .ok ()

/-- capture models the `toSvg` core pipeline: initializeOptions →
checkDOMComplexity → cloneNode (as root) → embedImages over the clone.
`embedWebFonts` and the final serialization are outside the modelled core.
The `.ok none` arm of the root clone is unreachable (a capture root is
never filtered) and mapped to an empty text artifact. -/
def capture (o : Opts) (n : Node) : Except AbortReason CTree × St :=
  let (o1, st0) := initializeOptions o n
  match checkDOMComplexity o1 n with
  | .error e => (.error e, st0)
  | .ok _ =>
    match CloneNode.cloneNode o1 true n st0 with
    | (.error e, st1) => (.error e, st1)
    | (.ok none, st1) => (.ok (.text ""), st1)
    | (.ok (some c), st1) =>
      let (c1, st2) := EmbedImages.embedImages o1 c st1
      (.ok c1, st2)

end Index

theorem CloneNode.checkLimits_ctx_events (o : Opts) (st : St) :
    (CloneNode.checkLimits o st).2.ctx = st.ctx ∧
      (CloneNode.checkLimits o st).2.events = st.events := by
  unfold CloneNode.checkLimits
  dsimp only [dateNow]
  split_ifs <;> simp

/-- C6.  `checkLimits` raises `max_nodes` exactly when a node cap is
configured (truthy) and the processed-node counter has reached it; it
raises `timeout` exactly when the node condition does not hold, a timeout
is configured (with a truthy capture start time) and the wall clock read by
the check is at least `timeout` past the start; when both limit conditions
hold simultaneously it raises `max_nodes`, the node-count check being
evaluated first. -/
theorem claim_C6 (o : Opts) (st : St) (c : Ctx) (s : Nat)
    (hctx : st.ctx = some c) (hstart : o.startTime = some s) (hs : s ≠ 0) :
    ((CloneNode.checkLimits o st).1 = .error .max_nodes ↔
      o.maxNodes ≠ 0 ∧ o.maxNodes ≤ c.nodeCount) ∧
    ((CloneNode.checkLimits o st).1 = .error .timeout ↔
      ¬(o.maxNodes ≠ 0 ∧ o.maxNodes ≤ c.nodeCount) ∧ o.timeout ≠ 0 ∧
        (o.timeout : Int) ≤ (o.clk st.clkIdx : Int) - (s : Int)) ∧
    (o.maxNodes ≠ 0 ∧ o.maxNodes ≤ c.nodeCount →
      (CloneNode.checkLimits o st).1 = .error .max_nodes) := by
  unfold CloneNode.checkLimits
  simp only [hctx, hstart, truthyN, truthyOpt, dateNow, Option.getD_some]
  by_cases hA : o.maxNodes ≠ 0 ∧ o.maxNodes ≤ c.nodeCount
  · rw [if_pos (by simp [hA.1, hA.2])]
    simp [hA]
  · rw [if_neg (by simp only [Bool.and_eq_true, bne_iff_ne, decide_eq_true_eq]; tauto)]
    by_cases hB : o.timeout ≠ 0
    · rw [if_pos (by simp [hB, hs])]
      by_cases hC : (o.timeout : Int) ≤ (o.clk st.clkIdx : Int) - (s : Int)
      · rw [if_pos hC]
        exact ⟨by simp [hA], ⟨by simp [hA, hB, hC], fun h => absurd h hA⟩⟩
      · rw [if_neg hC]
        exact ⟨by simp [hA], ⟨by simp [hC], fun h => absurd h hA⟩⟩
    · rw [if_neg (by simp_all)]
      exact ⟨by simp [hA], ⟨by simp [hB], fun h => absurd h hA⟩⟩

/-- Concrete input for the C6 witness: cap 3 reached while the timeout
condition also holds. -/
def oW6 : Opts := { maxNodes := 3, timeout := 5, startTime := some 7, clk := fun _ => 100 }

def cW6 : Ctx := { nodeCount := 3, lastYieldTime := none, totalNodes := 0 }

def stW6 : St := { ctx := some cW6, clkIdx := 0, events := [] }

/-- Closed instance for C6: cap 3 reached by counter 3 while the timeout
condition also holds; `max_nodes` wins. -/
theorem claim_C6_witness :
    ((CloneNode.checkLimits oW6 stW6).1 = .error .max_nodes ↔
      oW6.maxNodes ≠ 0 ∧ oW6.maxNodes ≤ cW6.nodeCount) ∧
    ((CloneNode.checkLimits oW6 stW6).1 = .error .timeout ↔
      ¬(oW6.maxNodes ≠ 0 ∧ oW6.maxNodes ≤ cW6.nodeCount) ∧ oW6.timeout ≠ 0 ∧
        (oW6.timeout : Int) ≤ (oW6.clk stW6.clkIdx : Int) - ((7 : Nat) : Int)) ∧
    (oW6.maxNodes ≠ 0 ∧ oW6.maxNodes ≤ cW6.nodeCount →
      (CloneNode.checkLimits oW6 stW6).1 = .error .max_nodes) :=
  claim_C6 oW6 stW6 cW6 7 rfl rfl (by decide)

/-- C7.  A cooperative-mode Governor tick that passes the limit check
(`hlim` names the state `st2` left by `checkLimits`): (1) the counter is
incremented; (2) `onProgress` is invoked — one `(processed, total)` event —
exactly when a callback and a truthy total are available; (3) the tick
suspends iff a time budget is configured and the elapsed time since the
last yield (falling back to the capture start, then to a fresh clock read)
meets or exceeds it, or no budget is configured and the counter is an exact
multiple of `yieldEvery` (default 50); (4) on suspension the last-yield
timestamp is updated to the clock sample taken just before deferring. -/
theorem claim_C7 (o : Opts) (st st2 st' : St) (c : Ctx) (b : Bool)
    (hnb : o.nonBlocking = true) (hctx : st.ctx = some c)
    (hlim : CloneNode.checkLimits o
      { st with ctx := some { c with nodeCount := c.nodeCount + 1 } } = (.ok (), st2))
    (h : CloneNode.maybeYieldToMain o st = (.ok b, st')) :
    (∃ c', st'.ctx = some c' ∧ c'.nodeCount = c.nodeCount + 1) ∧
    (st'.events = st.events ++
      (if o.hasOnProgress && truthyN c.totalNodes
        then [(c.nodeCount + 1, c.totalNodes)] else [])) ∧
    (b = true ↔
      (∃ bud, o.yieldBudget = some bud ∧
        (bud : Int) ≤ (o.clk st2.clkIdx : Int) -
          ((c.lastYieldTime.getD (o.startTime.getD (o.clk (st2.clkIdx + 1)))) : Int)) ∨
      (o.yieldBudget = none ∧ (c.nodeCount + 1) % (o.yieldEvery.getD 50) = 0)) ∧
    (b = true → ∃ c', st'.ctx = some c' ∧
      c'.lastYieldTime = some (o.clk (st'.clkIdx - 1))) := by
  have hse := CloneNode.checkLimits_ctx_events o
    { st with ctx := some { c with nodeCount := c.nodeCount + 1 } }
  rw [hlim] at hse
  dsimp only at hse
  obtain ⟨hse1, hse2⟩ := hse
  unfold CloneNode.maybeYieldToMain at h
  rw [hnb] at h
  dsimp only [Bool.not_true] at h
  rw [if_neg (by simp)] at h
  rw [hctx] at h
  dsimp only at h
  rw [hlim] at h
  dsimp only at h
  by_cases hp : (o.hasOnProgress && truthyN c.totalNodes) = true
  · rw [if_pos hp] at h
    rw [if_pos hp]
    cases hyb : o.yieldBudget with
    | some bud =>
      rw [hyb] at h
      dsimp only [dateNow] at h
      cases hly : c.lastYieldTime with
      | some t =>
        rw [hly] at h
        dsimp only at h
        by_cases hcond : (bud : Int) ≤ (o.clk st2.clkIdx : Int) - (t : Int)
        · rw [if_pos hcond] at h
          obtain ⟨hb, hst'⟩ := Prod.mk.injEq .. ▸ h
          cases hb
          subst hst'
          refine ⟨⟨_, rfl, rfl⟩, by simp [hse2], ?_, fun _ => ⟨_, rfl, by simp⟩⟩
          simp [hyb, hly, hcond]
        · rw [if_neg hcond] at h
          obtain ⟨hb, hst'⟩ := Prod.mk.injEq .. ▸ h
          cases hb
          subst hst'
          refine ⟨⟨_, hse1, rfl⟩, by simp [hse2], ?_, by simp⟩
          refine iff_of_false (by simp) (not_or.mpr ⟨?_, by rintro ⟨h1, _⟩; cases h1⟩)
          rintro ⟨bud2, hb2, hle⟩
          cases hb2
          simp only [Option.getD_some] at hle
          exact hcond hle
      | none =>
        rw [hly] at h
        cases hstt : o.startTime with
        | some s =>
          rw [hstt] at h
          dsimp only at h
          by_cases hcond : (bud : Int) ≤ (o.clk st2.clkIdx : Int) - (s : Int)
          · rw [if_pos hcond] at h
            obtain ⟨hb, hst'⟩ := Prod.mk.injEq .. ▸ h
            cases hb
            subst hst'
            refine ⟨⟨_, rfl, rfl⟩, by simp [hse2], ?_, fun _ => ⟨_, rfl, by simp⟩⟩
            simp [hyb, hly, hstt, hcond]
          · rw [if_neg hcond] at h
            obtain ⟨hb, hst'⟩ := Prod.mk.injEq .. ▸ h
            cases hb
            subst hst'
            refine ⟨⟨_, hse1, rfl⟩, by simp [hse2], ?_, by simp⟩
            refine iff_of_false (by simp) (not_or.mpr ⟨?_, by rintro ⟨h1, _⟩; cases h1⟩)
            rintro ⟨bud2, hb2, hle⟩
            cases hb2
            simp only [Option.getD_none, Option.getD_some] at hle
            exact hcond hle
        | none =>
          rw [hstt] at h
          dsimp only [dateNow] at h
          by_cases hcond : (bud : Int) ≤ (o.clk st2.clkIdx : Int) - (o.clk (st2.clkIdx + 1) : Int)
          · rw [if_pos hcond] at h
            obtain ⟨hb, hst'⟩ := Prod.mk.injEq .. ▸ h
            cases hb
            subst hst'
            refine ⟨⟨_, rfl, rfl⟩, by simp [hse2], ?_, fun _ => ⟨_, rfl, by simp⟩⟩
            simp [hyb, hly, hstt, hcond]
          · rw [if_neg hcond] at h
            obtain ⟨hb, hst'⟩ := Prod.mk.injEq .. ▸ h
            cases hb
            subst hst'
            refine ⟨⟨_, hse1, rfl⟩, by simp [hse2], ?_, by simp⟩
            refine iff_of_false (by simp) (not_or.mpr ⟨?_, by rintro ⟨h1, _⟩; cases h1⟩)
            rintro ⟨bud2, hb2, hle⟩
            cases hb2
            simp only [Option.getD_none] at hle
            exact hcond hle
    | none =>
      rw [hyb] at h
      dsimp only [dateNow] at h
      by_cases hcond : ((c.nodeCount + 1) % (o.yieldEvery.getD 50) == 0) = true
      · rw [if_pos hcond] at h
        obtain ⟨hb, hst'⟩ := Prod.mk.injEq .. ▸ h
        cases hb
        subst hst'
        refine ⟨⟨_, rfl, rfl⟩, by simp [hse2], ?_, fun _ => ⟨_, rfl, by simp⟩⟩
        exact iff_of_true rfl (Or.inr ⟨by simp, by simpa using hcond⟩)
      · rw [if_neg hcond] at h
        obtain ⟨hb, hst'⟩ := Prod.mk.injEq .. ▸ h
        cases hb
        subst hst'
        refine ⟨⟨_, hse1, rfl⟩, by simp [hse2], ?_, by simp⟩
        refine iff_of_false (by simp)
          (not_or.mpr ⟨(by rintro ⟨bud2, hb2, _⟩; cases hb2), ?_⟩)
        rintro ⟨_, h2⟩
        exact hcond (by simpa using h2)
  · rw [if_neg hp] at h
    rw [if_neg hp]
    cases hyb : o.yieldBudget with
    | some bud =>
      rw [hyb] at h
      dsimp only [dateNow] at h
      cases hly : c.lastYieldTime with
      | some t =>
        rw [hly] at h
        dsimp only at h
        by_cases hcond : (bud : Int) ≤ (o.clk st2.clkIdx : Int) - (t : Int)
        · rw [if_pos hcond] at h
          obtain ⟨hb, hst'⟩ := Prod.mk.injEq .. ▸ h
          cases hb
          subst hst'
          refine ⟨⟨_, rfl, rfl⟩, by simp [hse2], ?_, fun _ => ⟨_, rfl, by simp⟩⟩
          simp [hyb, hly, hcond]
        · rw [if_neg hcond] at h
          obtain ⟨hb, hst'⟩ := Prod.mk.injEq .. ▸ h
          cases hb
          subst hst'
          refine ⟨⟨_, hse1, rfl⟩, by simp [hse2], ?_, by simp⟩
          refine iff_of_false (by simp) (not_or.mpr ⟨?_, by rintro ⟨h1, _⟩; cases h1⟩)
          rintro ⟨bud2, hb2, hle⟩
          cases hb2
          simp only [Option.getD_some] at hle
          exact hcond hle
      | none =>
        rw [hly] at h
        cases hstt : o.startTime with
        | some s =>
          rw [hstt] at h
          dsimp only at h
          by_cases hcond : (bud : Int) ≤ (o.clk st2.clkIdx : Int) - (s : Int)
          · rw [if_pos hcond] at h
            obtain ⟨hb, hst'⟩ := Prod.mk.injEq .. ▸ h
            cases hb
            subst hst'
            refine ⟨⟨_, rfl, rfl⟩, by simp [hse2], ?_, fun _ => ⟨_, rfl, by simp⟩⟩
            simp [hyb, hly, hstt, hcond]
          · rw [if_neg hcond] at h
            obtain ⟨hb, hst'⟩ := Prod.mk.injEq .. ▸ h
            cases hb
            subst hst'
            refine ⟨⟨_, hse1, rfl⟩, by simp [hse2], ?_, by simp⟩
            refine iff_of_false (by simp) (not_or.mpr ⟨?_, by rintro ⟨h1, _⟩; cases h1⟩)
            rintro ⟨bud2, hb2, hle⟩
            cases hb2
            simp only [Option.getD_none, Option.getD_some] at hle
            exact hcond hle
        | none =>
          rw [hstt] at h
          dsimp only [dateNow] at h
          by_cases hcond : (bud : Int) ≤ (o.clk st2.clkIdx : Int) - (o.clk (st2.clkIdx + 1) : Int)
          · rw [if_pos hcond] at h
            obtain ⟨hb, hst'⟩ := Prod.mk.injEq .. ▸ h
            cases hb
            subst hst'
            refine ⟨⟨_, rfl, rfl⟩, by simp [hse2], ?_, fun _ => ⟨_, rfl, by simp⟩⟩
            simp [hyb, hly, hstt, hcond]
          · rw [if_neg hcond] at h
            obtain ⟨hb, hst'⟩ := Prod.mk.injEq .. ▸ h
            cases hb
            subst hst'
            refine ⟨⟨_, hse1, rfl⟩, by simp [hse2], ?_, by simp⟩
            refine iff_of_false (by simp) (not_or.mpr ⟨?_, by rintro ⟨h1, _⟩; cases h1⟩)
            rintro ⟨bud2, hb2, hle⟩
            cases hb2
            simp only [Option.getD_none] at hle
            exact hcond hle
    | none =>
      rw [hyb] at h
      dsimp only [dateNow] at h
      by_cases hcond : ((c.nodeCount + 1) % (o.yieldEvery.getD 50) == 0) = true
      · rw [if_pos hcond] at h
        obtain ⟨hb, hst'⟩ := Prod.mk.injEq .. ▸ h
        cases hb
        subst hst'
        refine ⟨⟨_, rfl, rfl⟩, by simp [hse2], ?_, fun _ => ⟨_, rfl, by simp⟩⟩
        exact iff_of_true rfl (Or.inr ⟨by simp, by simpa using hcond⟩)
      · rw [if_neg hcond] at h
        obtain ⟨hb, hst'⟩ := Prod.mk.injEq .. ▸ h
        cases hb
        subst hst'
        refine ⟨⟨_, hse1, rfl⟩, by simp [hse2], ?_, by simp⟩
        refine iff_of_false (by simp)
          (not_or.mpr ⟨(by rintro ⟨bud2, hb2, _⟩; cases hb2), ?_⟩)
        rintro ⟨_, h2⟩
        exact hcond (by simpa using h2)

/-- Concrete inputs for the C7 witness: counter 49 → 50, default count
granularity 50, so the tick suspends; progress callback and total set. -/
def oW7 : Opts := { nonBlocking := true, hasOnProgress := true, clk := fun i => 1000 + i }

def cW7 : Ctx := { nodeCount := 49, lastYieldTime := some 5, totalNodes := 10 }

def stW7 : St := { ctx := some cW7, clkIdx := 3, events := [(49, 10)] }

def st2W7 : St :=
  { ctx := some { nodeCount := 50, lastYieldTime := some 5, totalNodes := 10 },
    clkIdx := 3, events := [(49, 10)] }

def stW7fin : St :=
  { ctx := some { nodeCount := 50, lastYieldTime := some 1003, totalNodes := 10 },
    clkIdx := 4, events := [(49, 10), (50, 10)] }

/-- Closed instance for C7: a suspending tick at counter 50 with an
onProgress event and an updated last-yield timestamp. -/
theorem claim_C7_witness :
    (∃ c', stW7fin.ctx = some c' ∧ c'.nodeCount = cW7.nodeCount + 1) ∧
    (stW7fin.events = stW7.events ++
      (if oW7.hasOnProgress && truthyN cW7.totalNodes
        then [(cW7.nodeCount + 1, cW7.totalNodes)] else [])) ∧
    (true = true ↔
      (∃ bud, oW7.yieldBudget = some bud ∧
        (bud : Int) ≤ (oW7.clk st2W7.clkIdx : Int) -
          ((cW7.lastYieldTime.getD (oW7.startTime.getD (oW7.clk (st2W7.clkIdx + 1)))) : Int)) ∨
      (oW7.yieldBudget = none ∧ (cW7.nodeCount + 1) % (oW7.yieldEvery.getD 50) = 0)) ∧
    (true = true → ∃ c', stW7fin.ctx = some c' ∧
      c'.lastYieldTime = some (oW7.clk (stW7fin.clkIdx - 1))) :=
  claim_C7 oW7 stW7 st2W7 stW7fin cW7 true rfl rfl rfl rfl

theorem nb_maybeYield (o : Opts) (st : St)
    (h : o.nonBlocking = false ∨ st.ctx = none) :
    CloneNode.maybeYieldToMain o st = (.ok false, st) := by
  unfold CloneNode.maybeYieldToMain
  rcases h with h | h
  · rw [h]
    simp
  · rcases hnb : o.nonBlocking
    · simp
    · rw [h]
      simp

theorem nb_maybeYieldEmbed (o : Opts) (st : St)
    (h : o.nonBlocking = false ∨ st.ctx = none) :
    EmbedImages.maybeYieldToMain o st = (false, st) := by
  unfold EmbedImages.maybeYieldToMain
  rcases h with h | h
  · rw [h]
    simp
  · rcases hnb : o.nonBlocking
    · simp
    · rw [h]
      simp

theorem nb_cloneAllD : ∀ d : Nat, ∀ o : Opts, o.defsDepth ≤ d →
    o.nonBlocking = false →
    ((∀ (uses : List NData) (c : CTree) (processed : List (String × CTree))
        (st : St),
        ∃ res, CloneNode.ensureLoop o c uses processed st = (.ok res, st)) ∧
     (∀ (c : CTree) (st : St),
        ∃ c2, CloneNode.ensureSVGSymbols o c st = (.ok c2, st))) ∧
    ∀ k : Nat,
      (∀ n : Node, Node.size n ≤ k → ∀ (r : Bool) (st : St),
        ∃ copt, CloneNode.cloneNode o r n st = (.ok copt, st)) ∧
      (∀ n : Node, Node.size n ≤ k → ∀ st : St,
        ∃ c, CloneNode.cloneSingleNode o n st = (.ok c, st)) ∧
      (∀ n : Node, Node.size n ≤ k → ∀ (c : CTree) (st : St),
        ∃ c2, CloneNode.cloneChildren o n c st = (.ok c2, st)) ∧
      (∀ l : List Node, Node.sizeL l ≤ k → ∀ st : St,
        ∃ cl, CloneNode.cloneList o l st = (.ok cl, st)) := by
  intro d
  induction d using Nat.strong_induction_on with
  | _ d ihd =>
    intro o hd hnb
    have PE : ∀ (uses : List NData) (c : CTree) (processed : List (String × CTree))
        (st : St),
        ∃ res, CloneNode.ensureLoop o c uses processed st = (.ok res, st) := by
      intro uses
      induction uses with
      | nil =>
        intro c processed st
        refine ⟨processed, ?_⟩
        unfold CloneNode.ensureLoop
        rfl
      | cons u rest ihu =>
        intro c processed st
        unfold CloneNode.ensureLoop
        rw [nb_maybeYield o st (Or.inl hnb)]
        dsimp only
        cases hh : u.useHref with
        | none => exact ihu c processed st
        | some id =>
          dsimp only
          by_cases hid : id = ""
          · rw [if_pos hid]
            exact ihu c processed st
          · rw [if_neg hid]
            cases hsl : CloneNode.symbolLookup o id with
            | none => exact ihu c processed st
            | some defn =>
              dsimp only
              by_cases hg : (!CloneNode.querySelectorHit c id &&
                  (processed.find? fun p => p.1 == id).isNone) = true
              · rw [if_pos hg]
                by_cases hfd : 0 < o.defsDepth
                · rw [dif_pos hfd]
                  have hlt : o.defsDepth - 1 < d := by omega
                  obtain ⟨copt, hcs⟩ :=
                    ((ihd (o.defsDepth - 1) hlt { o with defsDepth := o.defsDepth - 1 }
                      le_rfl hnb).2 (Node.size defn)).1 defn le_rfl true st
                  rw [hcs]
                  cases copt with
                  | none => exact ihu c processed st
                  | some dc => exact ihu c (processed ++ [(id, dc)]) st
                · rw [dif_neg hfd]
                  exact ihu c processed st
              · rw [if_neg hg]
                exact ihu c processed st
    have PES : ∀ (c : CTree) (st : St),
        ∃ c2, CloneNode.ensureSVGSymbols o c st = (.ok c2, st) := by
      intro c st
      unfold CloneNode.ensureSVGSymbols
      dsimp only
      by_cases hu : (CloneNode.usesOf c).isEmpty = true
      · rw [if_pos hu]
        exact ⟨c, rfl⟩
      · rw [if_neg hu]
        obtain ⟨res, hres⟩ := PE (CloneNode.usesOf c) c [] st
        rw [hres]
        dsimp only
        by_cases hn : (res.map Prod.snd).isEmpty = true
        · rw [if_pos hn]
          exact ⟨c, rfl⟩
        · rw [if_neg hn]
          exact ⟨_, rfl⟩
    refine ⟨⟨PE, PES⟩, ?_⟩
    intro k
    induction k using Nat.strong_induction_on with
    | _ k ih =>
      have PL : ∀ l : List Node, Node.sizeL l ≤ k → ∀ st : St,
          ∃ cl, CloneNode.cloneList o l st = (.ok cl, st) := by
        intro l
        induction l with
        | nil =>
          intro _ st
          refine ⟨[], ?_⟩
          unfold CloneNode.cloneList
          rfl
        | cons ch rest ihl =>
          intro hle st
          have hsz : Node.sizeL (ch :: rest) = 1 + Node.size ch + Node.sizeL rest := by
            rw [Node.sizeL]
          have hch : Node.size ch < k := by omega
          obtain ⟨copt, hcopt⟩ := (ih (Node.size ch) hch).1 ch le_rfl false st
          obtain ⟨cl, hcl⟩ := ihl (by omega) st
          cases copt with
          | none =>
            refine ⟨cl, ?_⟩
            unfold CloneNode.cloneList
            simp only [nb_maybeYield o st (Or.inl hnb), hcopt, hcl]
          | some cc =>
            refine ⟨cc :: cl, ?_⟩
            unfold CloneNode.cloneList
            simp only [nb_maybeYield o st (Or.inl hnb), hcopt, hcl]
      have PS : ∀ n : Node, Node.size n ≤ k → ∀ st : St,
          ∃ c, CloneNode.cloneSingleNode o n st = (.ok c, st) := by
        intro n hle st
        cases n with
        | mk nd fb hs sh asg cs =>
          unfold CloneNode.cloneSingleNode
          split_ifs with h1 h2 h3 h4
          · unfold CloneNode.cloneCanvasElement
            split_ifs <;> exact ⟨_, rfl⟩
          · unfold CloneNode.cloneVideoElement
            split_ifs <;> exact ⟨_, rfl⟩
          · cases fb with
            | nil => exact ⟨_, rfl⟩
            | cons b fbt =>
              have hb : Node.size b < k := by
                simp only [Node.size, Node.sizeL] at hle
                omega
              obtain ⟨copt, hcopt⟩ := (ih (Node.size b) hb).1 b le_rfl true st
              cases copt with
              | none => exact ⟨.elem nd [], by simp only [hcopt]⟩
              | some c => exact ⟨c, by simp only [hcopt]⟩
          · exact ⟨_, rfl⟩
          · exact ⟨_, rfl⟩
      have PC : ∀ n : Node, Node.size n ≤ k → ∀ (c : CTree) (st : St),
          ∃ c2, CloneNode.cloneChildren o n c st = (.ok c2, st) := by
        intro n hle c st
        unfold CloneNode.cloneChildren
        by_cases h1 : CloneNode.cTag c = Tag.svg
        · rw [if_pos h1]
          exact ⟨c, rfl⟩
        · rw [if_neg h1]
          by_cases h2 : ((CloneNode.childrenSource n).isEmpty ||
              decide (n.nd.tag = Tag.video)) = true
          · rw [if_pos h2]
            exact ⟨c, rfl⟩
          · rw [if_neg h2]
            have hcs : Node.sizeL (CloneNode.childrenSource n) ≤ k :=
              le_trans (le_of_lt (CloneNode.Node.childrenSource_sizeL_lt n)) hle
            obtain ⟨cl, hcl⟩ := PL (CloneNode.childrenSource n) hcs st
            exact ⟨CloneNode.appendChildren c cl, by simp only [hcl]⟩
      refine ⟨?_, PS, PC, PL⟩
      intro n hle r st
      unfold CloneNode.cloneNode
      by_cases h1 : (!r && (match o.filter with
        | some f => !f n
        | none => false)) = true
      · rw [if_pos h1]
        exact ⟨none, rfl⟩
      · rw [if_neg h1]
        obtain ⟨c1, hc1⟩ := PS n hle st
        obtain ⟨c2, hc2⟩ := PC n hle c1 st
        obtain ⟨c4, hc4⟩ := PES (CloneNode.decorate n c2) st
        refine ⟨some c4, ?_⟩
        simp only [hc1, hc2, hc4]

theorem nb_cloneNode (o : Opts) (hnb : o.nonBlocking = false) (r : Bool) (n : Node)
    (st : St) : ∃ copt, CloneNode.cloneNode o r n st = (.ok copt, st) :=
  ((nb_cloneAllD o.defsDepth o le_rfl hnb).2 (Node.size n)).1 n le_rfl r st

theorem nb_embedImages (o : Opts) (hnb : o.nonBlocking = false) : ∀ k : Nat,
    (∀ c : CTree, sizeOf c ≤ k → ∀ st : St, (EmbedImages.embedImages o c st).2 = st) ∧
    (∀ l : List CTree, sizeOf l ≤ k → ∀ st : St,
      (EmbedImages.embedChildren o l st).2 = st) := by
  intro k
  induction k using Nat.strong_induction_on with
  | _ k ih =>
    constructor
    · intro c hle st
      cases c with
      | text s => rw [EmbedImages.embedImages]
      | elem nd cs =>
        have hcs : sizeOf cs < k := by
          have h := hle
          simp only [CTree.elem.sizeOf_spec] at h
          omega
        rw [EmbedImages.embedImages]
        have := (ih (sizeOf cs) hcs).2 cs le_rfl st
        simp only []
        rw [show EmbedImages.embedChildren o cs st =
          ((EmbedImages.embedChildren o cs st).1, st) from Prod.ext rfl this]
      | img s cs =>
        have hcs : sizeOf cs < k := by
          have h := hle
          simp only [CTree.img.sizeOf_spec] at h
          omega
        rw [EmbedImages.embedImages]
        have := (ih (sizeOf cs) hcs).2 cs le_rfl st
        simp only []
        rw [show EmbedImages.embedChildren o cs st =
          ((EmbedImages.embedChildren o cs st).1, st) from Prod.ext rfl this]
    · intro l hle st
      cases l with
      | nil => rw [EmbedImages.embedChildren]
      | cons c t =>
        have hc : sizeOf c < k := by
          have h := hle
          simp only [List.cons.sizeOf_spec] at h
          omega
        have ht : sizeOf t < k := by
          have h := hle
          simp only [List.cons.sizeOf_spec] at h
          omega
        rw [EmbedImages.embedChildren, nb_maybeYieldEmbed o st (Or.inl hnb)]
        have h1 := (ih (sizeOf c) hc).1 c le_rfl st
        have h2 := (ih (sizeOf t) ht).2 t le_rfl
        simp only []
        rw [show EmbedImages.embedImages o c st =
          ((EmbedImages.embedImages o c st).1, st) from Prod.ext rfl h1]
        rw [show EmbedImages.embedChildren o t st =
          ((EmbedImages.embedChildren o t st).1, st) from Prod.ext rfl (h2 st)]

theorem initializeOptions_fields (o : Opts) (n : Node) :
    (Index.initializeOptions o n).1.maxNodes = o.maxNodes ∧
    (Index.initializeOptions o n).1.nonBlocking = o.nonBlocking ∧
    (Index.initializeOptions o n).1.timeout = o.timeout := by
  unfold Index.initializeOptions
  split_ifs <;> simp

theorem checkDOMComplexity_congr (o o2 : Opts) (n : Node)
    (h : o.maxNodes = o2.maxNodes) :
    Index.checkDOMComplexity o n = Index.checkDOMComplexity o2 n := by
  unfold Index.checkDOMComplexity
  rw [h]

theorem checkDOMComplexity_error (o : Opts) (n : Node) (e : AbortReason)
    (h : Index.checkDOMComplexity o n = .error e) : e = .max_nodes := by
  unfold Index.checkDOMComplexity at h
  split_ifs at h
  exact (Except.error.injEq .. ▸ h).symm

/-- With nonBlocking disabled, the only error a capture can produce is the
pre-flight `max_nodes` rejection: the traversal ticks are no-ops and the
embedding phase cannot throw at all. -/
theorem nb_capture_spec (o : Opts) (hnb : o.nonBlocking = false) (n : Node) :
    ((Index.capture o n).1 = .error .max_nodes ↔
      Index.checkDOMComplexity o n = .error .max_nodes) ∧
    (∀ e, (Index.capture o n).1 = .error e → e = .max_nodes) := by
  have hfields := initializeOptions_fields o n
  unfold Index.capture
  rcases hini : Index.initializeOptions o n with ⟨o1, st0⟩
  rw [hini] at hfields
  dsimp only at hfields
  have hnb1 : o1.nonBlocking = false := by rw [hfields.2.1, hnb]
  have hdc : Index.checkDOMComplexity o1 n = Index.checkDOMComplexity o n :=
    checkDOMComplexity_congr o1 o n hfields.1
  simp only [hini]
  cases hD : Index.checkDOMComplexity o1 n with
  | error e =>
    have he : e = .max_nodes := checkDOMComplexity_error o1 n e hD
    subst he
    rw [← hdc, hD]
    simp
  | ok u =>
    cases u
    obtain ⟨copt, hclone⟩ := nb_cloneNode o1 hnb1 true n st0
    cases copt with
    | none =>
      simp only [hclone]
      constructor
      · constructor
        · intro hx
          cases hx
        · intro hx
          rw [← hdc, hD] at hx
          cases hx
      · intro e hx
        cases hx
    | some c =>
      simp only [hclone]
      rcases hemb : EmbedImages.embedImages o1 c st0 with ⟨c1, st2⟩
      simp only [hemb]
      constructor
      · constructor
        · intro hx
          cases hx
        · intro hx
          rw [← hdc, hD] at hx
          cases hx
      · intro e hx
        cases hx

/-- C10.  With nonBlocking disabled (or no traversal context) the Governor
tick of either phase is a pure no-op — the returned state is the input
state (no counter increment, no last-yield update, no clock read), no
progress event is emitted, no mid-traversal limit check runs, and the tick
never suspends.  Consequently, when `maxNodes` or `timeout` is configured
but `nonBlocking` is false, the pre-flight estimate check is the only limit
enforcement: the capture rejects (always with `max_nodes`) exactly when the
pre-flight check does, and never with `timeout`. -/
theorem claim_C10 (o : Opts) (n : Node) (hnb : o.nonBlocking = false) :
    (∀ st, CloneNode.maybeYieldToMain o st = (.ok false, st)) ∧
    (∀ st, EmbedImages.maybeYieldToMain o st = (false, st)) ∧
    (∀ (o2 : Opts) (st : St), st.ctx = none →
      CloneNode.maybeYieldToMain o2 st = (.ok false, st) ∧
      EmbedImages.maybeYieldToMain o2 st = (false, st)) ∧
    ((Index.capture o n).1 = .error .max_nodes ↔
      Index.checkDOMComplexity o n = .error .max_nodes) ∧
    (∀ e, (Index.capture o n).1 = .error e → e = .max_nodes) := by
  refine ⟨fun st => nb_maybeYield o st (Or.inl hnb),
    fun st => nb_maybeYieldEmbed o st (Or.inl hnb),
    fun o2 st h2 => ⟨nb_maybeYield o2 st (Or.inr h2), nb_maybeYieldEmbed o2 st (Or.inr h2)⟩,
    (nb_capture_spec o hnb n).1, (nb_capture_spec o hnb n).2⟩

/-- Concrete input for the C10 witness: maxNodes and timeout configured,
nonBlocking off, a two-element tree within the cap. -/
def oW10 : Opts := { maxNodes := 5, timeout := 7, clk := fun i => 100 * i }

def nW10 : Node :=
  .mk { tag := Tag.div } [] false [] []
    [.mk { tag := Tag.div } [] false [] [] []]

/-- Closed instance for C10 at a concrete capture. -/
theorem claim_C10_witness :
    (∀ st, CloneNode.maybeYieldToMain oW10 st = (.ok false, st)) ∧
    (∀ st, EmbedImages.maybeYieldToMain oW10 st = (false, st)) ∧
    (∀ (o2 : Opts) (st : St), st.ctx = none →
      CloneNode.maybeYieldToMain o2 st = (.ok false, st) ∧
      EmbedImages.maybeYieldToMain o2 st = (false, st)) ∧
    ((Index.capture oW10 nW10).1 = .error .max_nodes ↔
      Index.checkDOMComplexity oW10 nW10 = .error .max_nodes) ∧
    (∀ e, (Index.capture oW10 nW10).1 = .error e → e = .max_nodes) :=
  claim_C10 oW10 nW10 rfl

/-- Concrete input refuting C2: `timeout = 5` is configured and the wall
clock advances by 1,000,000 per `Date.now()` call — any traversal of
nonzero duration vastly exceeds the cap — yet `nonBlocking` is false. -/
def oC2 : Opts := { timeout := 5, nonBlocking := false, clk := fun i => 1000000 * i }

def nC2 : Node :=
  .mk { tag := Tag.div } [] false [] []
    [.mk { tag := Tag.div } [] false [] [] []]

/-- C2 counterexample: the capture whose wall-clock duration exceeds
`timeout = 5` (the clock jumps a million units per read) completes with a
result instead of rejecting with AbortTimeout, because with `nonBlocking`
disabled no Governor tick — hence no `checkLimits` call — ever runs; the
claim "regardless of whether nonBlocking is enabled" is false on the code. -/
theorem claim_C2_counterexample :
    oC2.timeout = 5 ∧ oC2.nonBlocking = false ∧
    (∀ i, (oC2.timeout : Int) ≤ (oC2.clk (i + 1) : Int) - (oC2.clk i : Int)) ∧
    (Index.capture oC2 nC2).1 =
      .ok (.elem { tag := Tag.div } [.elem { tag := Tag.div } []]) := by
  refine ⟨rfl, rfl, ?_, ?_⟩
  · intro i
    show (5 : Int) ≤ (1000000 * (i + 1) : Nat) - (1000000 * i : Nat)
    push_cast
    omega
  · simp [Index.capture, Index.initializeOptions, Index.checkDOMComplexity,
      Index.estimateDOMComplexity, Index.countElems, Index.countElemsL,
      CloneNode.cloneNode, CloneNode.cloneSingleNode, CloneNode.cloneChildren,
      CloneNode.cloneList, CloneNode.maybeYieldToMain, CloneNode.checkLimits,
      CloneNode.childrenSource, CloneNode.cTag, CloneNode.decorate,
      CloneNode.ensureSVGSymbols, CloneNode.ensureLoop, CloneNode.usesOf,
      CloneNode.usesIn, CloneNode.usesInL, CloneNode.appendChildren,
      CloneNode.setChildren, EmbedImages.embedImages, EmbedImages.embedChildren,
      EmbedImages.maybeYieldToMain, oC2, nC2, truthyN, truthyOpt, dateNow,
      Node.nd, Node.children]

/-- C2 as amended: timeout enforcement happens only at cloning-phase
Governor ticks, which run only in nonBlocking mode.  (a) In nonBlocking
mode, a tick at which the node-cap condition does not hold, a timeout and a
truthy start time are configured, and the clock is at least `timeout` past
the start rejects with `timeout`; (b) with nonBlocking disabled a capture
never rejects with `timeout`, whatever the clock does (the embedding
phase's tick performs no limit check at all, so it can never reject). -/
theorem claim_C2 (o : Opts) (st : St) (c : Ctx) (s : Nat)
    (hnb : o.nonBlocking = true) (hctx : st.ctx = some c)
    (hmax : ¬(o.maxNodes ≠ 0 ∧ o.maxNodes ≤ c.nodeCount + 1))
    (ht : o.timeout ≠ 0) (hstart : o.startTime = some s) (hs : s ≠ 0)
    (helapsed : (o.timeout : Int) ≤ (o.clk st.clkIdx : Int) - (s : Int)) :
    (CloneNode.maybeYieldToMain o st).1 = .error .timeout ∧
    (∀ (o2 : Opts) (n : Node), o2.nonBlocking = false →
      (Index.capture o2 n).1 ≠ .error .timeout) := by
  constructor
  · unfold CloneNode.maybeYieldToMain
    rw [hnb, hctx]
    dsimp only [Bool.not_true]
    rw [if_neg (by simp)]
    have hcl : (CloneNode.checkLimits o
        { st with ctx := some { c with nodeCount := c.nodeCount + 1 } }).1 =
        .error .timeout := by
      unfold CloneNode.checkLimits
      rw [if_neg (by
        simp only [truthyN, Bool.and_eq_true, bne_iff_ne, decide_eq_true_eq]
        exact hmax)]
      rw [if_pos (by simp [truthyN, truthyOpt, ht, hstart, hs])]
      dsimp only [dateNow]
      rw [hstart]
      rw [if_pos (by simpa using helapsed)]
    rcases hx : CloneNode.checkLimits o
        { st with ctx := some { c with nodeCount := c.nodeCount + 1 } } with ⟨r, st2⟩
    rw [hx] at hcl
    dsimp only at hcl
    subst hcl
    simp
  · intro o2 n hnb2 hx
    have := (nb_capture_spec o2 hnb2 n).2 .timeout hx
    cases this

/-- Concrete inputs for the C2 witness. -/
def oW2 : Opts :=
  { nonBlocking := true, timeout := 5, startTime := some 10, clk := fun _ => 200 }

def cW2 : Ctx := { nodeCount := 0, lastYieldTime := none, totalNodes := 0 }

def stW2 : St := { ctx := some cW2, clkIdx := 0, events := [] }

/-- Closed instance for the amended C2: a nonBlocking tick 190 units past
the start time with `timeout = 5` rejects with `timeout`, and a capture
with nonBlocking disabled never does. -/
theorem claim_C2_witness :
    (CloneNode.maybeYieldToMain oW2 stW2).1 = .error .timeout ∧
    (∀ (o2 : Opts) (n : Node), o2.nonBlocking = false →
      (Index.capture o2 n).1 ≠ .error .timeout) :=
  claim_C2 oW2 stW2 cW2 10 rfl rfl (by decide) (by decide) rfl (by decide) (by decide)

/-- Current processed-node counter of a state (0 without a context). -/
def nc (st : St) : Nat :=
  match st.ctx with
  | some c => c.nodeCount
  | none => 0

/-- Well-formedness of the progress trace: reported processed values are
non-decreasing and bounded by the current counter. -/
def evOK (st : St) : Prop :=
  List.Chain' (· ≤ ·) (st.events.map Prod.fst) ∧ ∀ e ∈ st.events, e.1 ≤ nc st

/-- Transition relation preserved by every state change of the engine: the
counter never decreases and trace well-formedness is preserved. -/
def StR (st st2 : St) : Prop := nc st ≤ nc st2 ∧ (evOK st → evOK st2)

theorem StR_refl (st : St) : StR st st := ⟨le_rfl, id⟩

theorem StR_trans {a b c : St} (h1 : StR a b) (h2 : StR b c) : StR a c :=
  ⟨le_trans h1.1 h2.1, fun h => h2.2 (h1.2 h)⟩

theorem StR_step (st X : St) (c : Ctx) (hctx : st.ctx = some c)
    (hXctx : ∃ ly, X.ctx = some { c with nodeCount := c.nodeCount + 1, lastYieldTime := ly })
    (hXev : X.events = st.events ∨
      X.events = st.events ++ [(c.nodeCount + 1, c.totalNodes)]) :
    StR st X := by
  obtain ⟨ly, hXc⟩ := hXctx
  have hncst : nc st = c.nodeCount := by rw [nc, hctx]
  have hncX : nc X = c.nodeCount + 1 := by rw [nc, hXc]
  refine ⟨by omega, ?_⟩
  rintro ⟨h1, h2⟩
  rcases hXev with hE | hE
  · exact ⟨by rw [hE]; exact h1, by
      intro e he
      rw [hE] at he
      have := h2 e he
      omega⟩
  · constructor
    · rw [hE, List.map_append, List.chain'_append]
      refine ⟨h1, List.chain'_singleton _, ?_⟩
      intro x hx y hy
      simp only [List.head?_cons, List.map_cons, List.map_nil, Option.mem_def,
        Option.some.injEq] at hy
      subst hy
      have hxm : x ∈ st.events.map Prod.fst := by
        obtain ⟨hne, hxe⟩ := List.mem_getLast?_eq_getLast hx
        rw [hxe]
        exact List.getLast_mem hne
      obtain ⟨e, he, hex⟩ := List.mem_map.1 hxm
      have := h2 e he
      omega
    · intro e he
      rw [hE] at he
      rcases List.mem_append.1 he with he | he
      · have := h2 e he
        omega
      · simp only [List.mem_singleton] at he
        subst he
        omega

/-- The clone-node Governor tick satisfies the transition relation whatever
its outcome. -/
theorem StR_maybeYield (o : Opts) (st : St) :
    StR st (CloneNode.maybeYieldToMain o st).2 := by
  unfold CloneNode.maybeYieldToMain
  cases hnbv : o.nonBlocking with
  | false =>
    exact StR_refl st
  | true =>
    rw [if_neg (by simp)]
    cases hctx : st.ctx with
    | none => exact StR_refl st
    | some c =>
      dsimp only
      rcases hcl : CloneNode.checkLimits o
          { st with ctx := some { c with nodeCount := c.nodeCount + 1 } } with ⟨r, st2⟩
      have hse := CloneNode.checkLimits_ctx_events o
        { st with ctx := some { c with nodeCount := c.nodeCount + 1 } }
      rw [hcl] at hse
      dsimp only at hse
      cases r with
      | error e =>
        exact StR_step st st2 c hctx ⟨c.lastYieldTime, hse.1⟩ (Or.inl hse.2)
      | ok u =>
        cases u
        dsimp only
        by_cases hp : (o.hasOnProgress && truthyN c.totalNodes) = true
        · rw [if_pos hp]
          cases hyb : o.yieldBudget with
          | some bud =>
            dsimp only [dateNow]
            cases hly : c.lastYieldTime with
            | some t =>
              dsimp only
              split_ifs with hcond
              · exact StR_step st _ c hctx ⟨_, rfl⟩ (Or.inr (by dsimp only; rw [hse.2]))
              · exact StR_step st _ c hctx ⟨c.lastYieldTime, hse.1⟩
                  (Or.inr (by dsimp only; rw [hse.2]))
            | none =>
              cases hstt : o.startTime with
              | some s =>
                dsimp only
                split_ifs with hcond
                · exact StR_step st _ c hctx ⟨_, rfl⟩ (Or.inr (by dsimp only; rw [hse.2]))
                · exact StR_step st _ c hctx ⟨c.lastYieldTime, hse.1⟩
                    (Or.inr (by dsimp only; rw [hse.2]))
              | none =>
                dsimp only [dateNow]
                split_ifs with hcond
                · exact StR_step st _ c hctx ⟨_, rfl⟩ (Or.inr (by dsimp only; rw [hse.2]))
                · exact StR_step st _ c hctx ⟨c.lastYieldTime, hse.1⟩
                    (Or.inr (by dsimp only; rw [hse.2]))
          | none =>
            dsimp only [dateNow]
            split_ifs with hcond
            · exact StR_step st _ c hctx ⟨_, rfl⟩ (Or.inr (by dsimp only; rw [hse.2]))
            · exact StR_step st _ c hctx ⟨c.lastYieldTime, hse.1⟩
                (Or.inr (by dsimp only; rw [hse.2]))
        · rw [if_neg hp]
          cases hyb : o.yieldBudget with
          | some bud =>
            dsimp only [dateNow]
            cases hly : c.lastYieldTime with
            | some t =>
              dsimp only
              split_ifs with hcond
              · exact StR_step st _ c hctx ⟨_, rfl⟩ (Or.inl (by rw [hse.2]))
              · exact StR_step st _ c hctx ⟨c.lastYieldTime, hse.1⟩
                  (Or.inl hse.2)
            | none =>
              cases hstt : o.startTime with
              | some s =>
                dsimp only
                split_ifs with hcond
                · exact StR_step st _ c hctx ⟨_, rfl⟩ (Or.inl (by rw [hse.2]))
                · exact StR_step st _ c hctx ⟨c.lastYieldTime, hse.1⟩
                    (Or.inl hse.2)
              | none =>
                dsimp only [dateNow]
                split_ifs with hcond
                · exact StR_step st _ c hctx ⟨_, rfl⟩ (Or.inl (by rw [hse.2]))
                · exact StR_step st _ c hctx ⟨c.lastYieldTime, hse.1⟩
                    (Or.inl hse.2)
          | none =>
            dsimp only [dateNow]
            split_ifs with hcond
            · exact StR_step st _ c hctx ⟨_, rfl⟩ (Or.inl (by rw [hse.2]))
            · exact StR_step st _ c hctx ⟨c.lastYieldTime, hse.1⟩
                (Or.inl hse.2)

/-- The embed-images Governor tick satisfies the transition relation. -/
theorem StR_maybeYieldEmbed (o : Opts) (st : St) :
    StR st (EmbedImages.maybeYieldToMain o st).2 := by
  unfold EmbedImages.maybeYieldToMain
  cases hnbv : o.nonBlocking with
  | false =>
    exact StR_refl st
  | true =>
    rw [if_neg (by simp)]
    cases hctx : st.ctx with
    | none => exact StR_refl st
    | some c =>
      dsimp only
      by_cases hp : (o.hasOnProgress && truthyN c.totalNodes) = true
      · rw [if_pos hp]
        cases hyb : o.yieldBudget with
        | some bud =>
          dsimp only [dateNow]
          cases hly : c.lastYieldTime with
          | some t =>
            dsimp only
            split_ifs with hcond
            · exact StR_step st _ c hctx ⟨_, rfl⟩ (Or.inr rfl)
            · exact StR_step st _ c hctx ⟨_, rfl⟩ (Or.inr rfl)
          | none =>
            cases hstt : o.startTime with
            | some s =>
              dsimp only
              split_ifs with hcond
              · exact StR_step st _ c hctx ⟨_, rfl⟩ (Or.inr rfl)
              · exact StR_step st _ c hctx ⟨_, rfl⟩ (Or.inr rfl)
            | none =>
              dsimp only [dateNow]
              split_ifs with hcond
              · exact StR_step st _ c hctx ⟨_, rfl⟩ (Or.inr rfl)
              · exact StR_step st _ c hctx ⟨_, rfl⟩ (Or.inr rfl)
        | none =>
          dsimp only [dateNow]
          split_ifs with hcond
          · exact StR_step st _ c hctx ⟨_, rfl⟩ (Or.inr rfl)
          · exact StR_step st _ c hctx ⟨_, rfl⟩ (Or.inr rfl)
      · rw [if_neg hp]
        cases hyb : o.yieldBudget with
        | some bud =>
          dsimp only [dateNow]
          cases hly : c.lastYieldTime with
          | some t =>
            dsimp only
            split_ifs with hcond
            · exact StR_step st _ c hctx ⟨_, rfl⟩ (Or.inl rfl)
            · exact StR_step st _ c hctx ⟨_, rfl⟩ (Or.inl rfl)
          | none =>
            cases hstt : o.startTime with
            | some s =>
              dsimp only
              split_ifs with hcond
              · exact StR_step st _ c hctx ⟨_, rfl⟩ (Or.inl rfl)
              · exact StR_step st _ c hctx ⟨_, rfl⟩ (Or.inl rfl)
            | none =>
              dsimp only [dateNow]
              split_ifs with hcond
              · exact StR_step st _ c hctx ⟨_, rfl⟩ (Or.inl rfl)
              · exact StR_step st _ c hctx ⟨_, rfl⟩ (Or.inl rfl)
        | none =>
          dsimp only [dateNow]
          split_ifs with hcond
          · exact StR_step st _ c hctx ⟨_, rfl⟩ (Or.inl rfl)
          · exact StR_step st _ c hctx ⟨_, rfl⟩ (Or.inl rfl)

theorem StR_cloneAllD : ∀ d : Nat, ∀ o : Opts, o.defsDepth ≤ d →
    ((∀ (uses : List NData) (c : CTree) (processed : List (String × CTree))
        (st : St), StR st (CloneNode.ensureLoop o c uses processed st).2) ∧
     (∀ (c : CTree) (st : St), StR st (CloneNode.ensureSVGSymbols o c st).2)) ∧
    ∀ k : Nat,
      (∀ n : Node, Node.size n ≤ k → ∀ (r : Bool) (st : St),
        StR st (CloneNode.cloneNode o r n st).2) ∧
      (∀ n : Node, Node.size n ≤ k → ∀ st : St,
        StR st (CloneNode.cloneSingleNode o n st).2) ∧
      (∀ n : Node, Node.size n ≤ k → ∀ (c : CTree) (st : St),
        StR st (CloneNode.cloneChildren o n c st).2) ∧
      (∀ l : List Node, Node.sizeL l ≤ k → ∀ st : St,
        StR st (CloneNode.cloneList o l st).2) := by
  intro d
  induction d using Nat.strong_induction_on with
  | _ d ihd =>
    intro o hd
    have PE : ∀ (uses : List NData) (c : CTree) (processed : List (String × CTree))
        (st : St), StR st (CloneNode.ensureLoop o c uses processed st).2 := by
      intro uses
      induction uses with
      | nil =>
        intro c processed st
        unfold CloneNode.ensureLoop
        exact StR_refl st
      | cons u rest ihu =>
        intro c processed st
        unfold CloneNode.ensureLoop
        rcases hty : CloneNode.maybeYieldToMain o st with ⟨r, st1⟩
        have h1 : StR st st1 := by
          have h := StR_maybeYield o st
          rw [hty] at h
          exact h
        cases r with
        | error e => exact h1
        | ok b =>
          dsimp only
          cases hh : u.useHref with
          | none => exact StR_trans h1 (ihu c processed st1)
          | some id =>
            dsimp only
            by_cases hid : id = ""
            · rw [if_pos hid]
              exact StR_trans h1 (ihu c processed st1)
            · rw [if_neg hid]
              cases hsl : CloneNode.symbolLookup o id with
              | none => exact StR_trans h1 (ihu c processed st1)
              | some defn =>
                dsimp only
                by_cases hg : (!CloneNode.querySelectorHit c id &&
                    (processed.find? fun p => p.1 == id).isNone) = true
                · rw [if_pos hg]
                  by_cases hfd : 0 < o.defsDepth
                  · rw [dif_pos hfd]
                    have hlt : o.defsDepth - 1 < d := by omega
                    rcases hcs : CloneNode.cloneNode
                        { o with defsDepth := o.defsDepth - 1 } true defn st1
                      with ⟨cr, st2⟩
                    have h2 : StR st1 st2 := by
                      have h := ((ihd (o.defsDepth - 1) hlt
                        { o with defsDepth := o.defsDepth - 1 } le_rfl).2
                        (Node.size defn)).1 defn le_rfl true st1
                      rw [hcs] at h
                      exact h
                    cases cr with
                    | error e => exact StR_trans h1 h2
                    | ok copt =>
                      cases copt with
                      | none =>
                        exact StR_trans h1 (StR_trans h2 (ihu c processed st2))
                      | some dc =>
                        exact StR_trans h1
                          (StR_trans h2 (ihu c (processed ++ [(id, dc)]) st2))
                  · rw [dif_neg hfd]
                    exact StR_trans h1 (ihu c processed st1)
                · rw [if_neg hg]
                  exact StR_trans h1 (ihu c processed st1)
    have PES : ∀ (c : CTree) (st : St),
        StR st (CloneNode.ensureSVGSymbols o c st).2 := by
      intro c st
      unfold CloneNode.ensureSVGSymbols
      dsimp only
      by_cases hu : (CloneNode.usesOf c).isEmpty = true
      · rw [if_pos hu]
        exact StR_refl st
      · rw [if_neg hu]
        rcases hres : CloneNode.ensureLoop o c (CloneNode.usesOf c) [] st
          with ⟨lr, st1⟩
        have h1 : StR st st1 := by
          have h := PE (CloneNode.usesOf c) c [] st
          rw [hres] at h
          exact h
        cases lr with
        | error e => exact h1
        | ok processed =>
          dsimp only
          by_cases hn : ((processed.map Prod.snd).isEmpty) = true
          · rw [if_pos hn]
            exact h1
          · rw [if_neg hn]
            exact h1
    refine ⟨⟨PE, PES⟩, ?_⟩
    intro k
    induction k using Nat.strong_induction_on with
    | _ k ih =>
      have PL : ∀ l : List Node, Node.sizeL l ≤ k → ∀ st : St,
          StR st (CloneNode.cloneList o l st).2 := by
        intro l
        induction l with
        | nil =>
          intro _ st
          unfold CloneNode.cloneList
          exact StR_refl st
        | cons ch rest ihl =>
          intro hle st
          have hsz : Node.sizeL (ch :: rest) = 1 + Node.size ch + Node.sizeL rest := by
            rw [Node.sizeL]
          unfold CloneNode.cloneList
          rcases hty : CloneNode.maybeYieldToMain o st with ⟨r1, st1⟩
          have h1 : StR st st1 := by
            have h := StR_maybeYield o st
            rw [hty] at h
            exact h
          cases r1 with
          | error e => exact h1
          | ok b =>
            dsimp only
            rcases hcn : CloneNode.cloneNode o false ch st1 with ⟨r2, st2⟩
            have h2 : StR st1 st2 := by
              have h := (ih (Node.size ch) (by omega)).1 ch le_rfl false st1
              rw [hcn] at h
              exact h
            cases r2 with
            | error e => exact StR_trans h1 h2
            | ok copt =>
              cases copt with
              | none => exact StR_trans h1 (StR_trans h2 (ihl (by omega) st2))
              | some cc =>
                dsimp only
                rcases hcl2 : CloneNode.cloneList o rest st2 with ⟨r3, st3⟩
                have h3 : StR st2 st3 := by
                  have h := ihl (by omega) st2
                  rw [hcl2] at h
                  exact h
                cases r3 with
                | error e => exact StR_trans h1 (StR_trans h2 h3)
                | ok restC => exact StR_trans h1 (StR_trans h2 h3)
      have PS : ∀ n : Node, Node.size n ≤ k → ∀ st : St,
          StR st (CloneNode.cloneSingleNode o n st).2 := by
        intro n hle st
        cases n with
        | mk nd fb hs sh asg cs =>
          unfold CloneNode.cloneSingleNode
          split_ifs with h1 h2 h3 h4
          · unfold CloneNode.cloneCanvasElement
            split_ifs <;> exact StR_refl st
          · unfold CloneNode.cloneVideoElement
            split_ifs <;> exact StR_refl st
          · cases fb with
            | nil => exact StR_refl st
            | cons b fbt =>
              have hb : Node.size b < k := by
                simp only [Node.size, Node.sizeL] at hle
                omega
              dsimp only
              rcases hcn : CloneNode.cloneNode o true b st with ⟨r, st1⟩
              have hR : StR st st1 := by
                have h := (ih (Node.size b) hb).1 b le_rfl true st
                rw [hcn] at h
                exact h
              cases r with
              | error e => exact hR
              | ok copt => cases copt <;> exact hR
          · exact StR_refl st
          · exact StR_refl st
      have PC : ∀ n : Node, Node.size n ≤ k → ∀ (c : CTree) (st : St),
          StR st (CloneNode.cloneChildren o n c st).2 := by
        intro n hle c st
        unfold CloneNode.cloneChildren
        by_cases h1 : CloneNode.cTag c = Tag.svg
        · rw [if_pos h1]
          exact StR_refl st
        · rw [if_neg h1]
          by_cases h2 : ((CloneNode.childrenSource n).isEmpty ||
              decide (n.nd.tag = Tag.video)) = true
          · rw [if_pos h2]
            exact StR_refl st
          · rw [if_neg h2]
            have hcs : Node.sizeL (CloneNode.childrenSource n) ≤ k :=
              le_trans (le_of_lt (CloneNode.Node.childrenSource_sizeL_lt n)) hle
            rcases hcl : CloneNode.cloneList o (CloneNode.childrenSource n) st
              with ⟨r, st1⟩
            have hR : StR st st1 := by
              have h := PL (CloneNode.childrenSource n) hcs st
              rw [hcl] at h
              exact h
            cases r with
            | error e => exact hR
            | ok cl => exact hR
      refine ⟨?_, PS, PC, PL⟩
      intro n hle r st
      unfold CloneNode.cloneNode
      by_cases h1 : (!r && (match o.filter with
        | some f => !f n
        | none => false)) = true
      · rw [if_pos h1]
        exact StR_refl st
      · rw [if_neg h1]
        rcases hs1 : CloneNode.cloneSingleNode o n st with ⟨r1, st1⟩
        have hR1 : StR st st1 := by
          have h := PS n hle st
          rw [hs1] at h
          exact h
        cases r1 with
        | error e => exact hR1
        | ok c1 =>
          dsimp only
          rcases hc2 : CloneNode.cloneChildren o n c1 st1 with ⟨r2, st2⟩
          have hR2 : StR st1 st2 := by
            have h := PC n hle c1 st1
            rw [hc2] at h
            exact h
          cases r2 with
          | error e => exact StR_trans hR1 hR2
          | ok c2 =>
            dsimp only
            rcases he : CloneNode.ensureSVGSymbols o (CloneNode.decorate n c2) st2
              with ⟨r3, st3⟩
            have hR3 : StR st2 st3 := by
              have h := PES (CloneNode.decorate n c2) st2
              rw [he] at h
              exact h
            cases r3 with
            | error e => exact StR_trans hR1 (StR_trans hR2 hR3)
            | ok c4 => exact StR_trans hR1 (StR_trans hR2 hR3)

theorem StR_cloneAll (o : Opts) : ∀ k : Nat,
    (∀ n : Node, Node.size n ≤ k → ∀ (r : Bool) (st : St),
      StR st (CloneNode.cloneNode o r n st).2) ∧
    (∀ n : Node, Node.size n ≤ k → ∀ st : St,
      StR st (CloneNode.cloneSingleNode o n st).2) ∧
    (∀ n : Node, Node.size n ≤ k → ∀ (c : CTree) (st : St),
      StR st (CloneNode.cloneChildren o n c st).2) ∧
    (∀ l : List Node, Node.sizeL l ≤ k → ∀ st : St,
      StR st (CloneNode.cloneList o l st).2) :=
  (StR_cloneAllD o.defsDepth o le_rfl).2

theorem StR_embedAll (o : Opts) : ∀ k : Nat,
    (∀ c : CTree, sizeOf c ≤ k → ∀ st : St,
      StR st (EmbedImages.embedImages o c st).2) ∧
    (∀ l : List CTree, sizeOf l ≤ k → ∀ st : St,
      StR st (EmbedImages.embedChildren o l st).2) := by
  intro k
  induction k using Nat.strong_induction_on with
  | _ k ih =>
    constructor
    · intro c hle st
      cases c with
      | text s =>
        unfold EmbedImages.embedImages
        exact StR_refl st
      | elem nd cs =>
        have hcs : sizeOf cs < k := by
          have h := hle
          simp only [CTree.elem.sizeOf_spec] at h
          omega
        unfold EmbedImages.embedImages
        rcases hec : EmbedImages.embedChildren o cs st with ⟨cs1, st1⟩
        have hR : StR st st1 := by
          have h := (ih (sizeOf cs) hcs).2 cs le_rfl st
          rw [hec] at h
          exact h
        exact hR
      | img s cs =>
        have hcs : sizeOf cs < k := by
          have h := hle
          simp only [CTree.img.sizeOf_spec] at h
          omega
        unfold EmbedImages.embedImages
        rcases hec : EmbedImages.embedChildren o cs st with ⟨cs1, st1⟩
        have hR : StR st st1 := by
          have h := (ih (sizeOf cs) hcs).2 cs le_rfl st
          rw [hec] at h
          exact h
        exact hR
    · intro l hle st
      cases l with
      | nil =>
        unfold EmbedImages.embedChildren
        exact StR_refl st
      | cons c t =>
        have hc : sizeOf c < k := by
          have h := hle
          simp only [List.cons.sizeOf_spec] at h
          omega
        have ht : sizeOf t < k := by
          have h := hle
          simp only [List.cons.sizeOf_spec] at h
          omega
        unfold EmbedImages.embedChildren
        rcases hty : EmbedImages.maybeYieldToMain o st with ⟨b, st1⟩
        have h1 : StR st st1 := by
          have h := StR_maybeYieldEmbed o st
          rw [hty] at h
          exact h
        dsimp only
        rcases hei : EmbedImages.embedImages o c st1 with ⟨c1, st2⟩
        have h2 : StR st1 st2 := by
          have h := (ih (sizeOf c) hc).1 c le_rfl st1
          rw [hei] at h
          exact h
        dsimp only
        rcases hec : EmbedImages.embedChildren o t st2 with ⟨t1, st3⟩
        have h3 : StR st2 st3 := by
          have h := (ih (sizeOf t) ht).2 t le_rfl st2
          rw [hec] at h
          exact h
        exact StR_trans h1 (StR_trans h2 h3)

/-- C4 as amended: the processed values reported to `onProgress` over a
whole capture form a non-decreasing sequence.  (The second half of the
original claim — that the final reported value never exceeds the reported
total estimate — is refuted by `claim_C4_counterexample`.) -/
theorem claim_C4 (o : Opts) (n : Node) :
    List.Chain' (· ≤ ·) (((Index.capture o n).2.events).map Prod.fst) := by
  unfold Index.capture
  rcases hini : Index.initializeOptions o n with ⟨o1, st0⟩
  have hev0 : evOK st0 := by
    have h0 : (Index.initializeOptions o n).2.events = [] := by
      unfold Index.initializeOptions
      split_ifs <;> rfl
    rw [hini] at h0
    dsimp only at h0
    exact ⟨by rw [h0]; exact List.chain'_nil, by
      intro e he
      rw [h0] at he
      cases he⟩
  simp only [hini]
  cases hD : Index.checkDOMComplexity o1 n with
  | error e => exact hev0.1
  | ok u =>
    cases u
    rcases hcn : CloneNode.cloneNode o1 true n st0 with ⟨r1, st1⟩
    have h1 : evOK st1 := by
      have h := (StR_cloneAll o1 (Node.size n)).1 n le_rfl true st0
      rw [hcn] at h
      exact h.2 hev0
    cases r1 with
    | error e => exact h1.1
    | ok copt =>
      cases copt with
      | none => exact h1.1
      | some c =>
        dsimp only
        rcases hei : EmbedImages.embedImages o1 c st1 with ⟨c1, st2⟩
        have h2 : evOK st2 := by
          have h := (StR_embedAll o1 (sizeOf c)).1 c le_rfl st1
          rw [hei] at h
          exact h.2 h1
        exact h2.1

/-- Concrete input refuting the bound half of C4: a seven-element chain
`div → div → div → div → div → div → use` captured in nonBlocking mode with
an `onProgress` callback.  The pre-flight estimate is
`Math.floor(7 × 2.5) = 17`, but 18 Governor ticks run (6 per-child clone
ticks, 6 `ensureSVGSymbols` ticks — the deep `use` element is re-scanned by
every enclosing ancestor's symbol pass — and 6 embed-phase ticks). -/
def oC4 : Opts := { nonBlocking := true, hasOnProgress := true }

def nC4 : Node :=
  .mk { tag := Tag.div } [] false [] []
    [.mk { tag := Tag.div } [] false [] []
      [.mk { tag := Tag.div } [] false [] []
        [.mk { tag := Tag.div } [] false [] []
          [.mk { tag := Tag.div } [] false [] []
            [.mk { tag := Tag.div } [] false [] []
              [.mk { tag := Tag.use } [] false [] [] []]]]]]]

/-- C4 counterexample: the final progress report of the capture is
`(18, 17)` — the reported processed value exceeds the reported total
estimate. -/
theorem claim_C4_counterexample :
    ((Index.capture oC4 nC4).2.events).getLast? = some (18, 17) ∧ ¬(18 ≤ 17) := by
  constructor
  · simp [Index.capture, Index.initializeOptions, Index.checkDOMComplexity,
      Index.estimateDOMComplexity, Index.countElems, Index.countElemsL,
      CloneNode.cloneNode, CloneNode.cloneSingleNode, CloneNode.cloneChildren,
      CloneNode.cloneList, CloneNode.maybeYieldToMain, CloneNode.checkLimits,
      CloneNode.childrenSource, CloneNode.cTag, CloneNode.decorate,
      CloneNode.ensureSVGSymbols, CloneNode.ensureLoop, CloneNode.usesOf,
      CloneNode.usesIn, CloneNode.usesInL, CloneNode.appendChildren,
      CloneNode.setChildren, EmbedImages.embedImages, EmbedImages.embedChildren,
      EmbedImages.maybeYieldToMain, oC4, nC4, truthyN, truthyOpt, dateNow,
      Node.nd, Node.children]
  · decide

/-- Concrete input refuting C1: `maxNodes = 2` in nonBlocking mode; by the
time the iframe is reached one node has been counted, so the Governor
raises `max_nodes` inside the recursive clone of the iframe body. -/
def oX1 : Opts := { nonBlocking := true, maxNodes := 2 }

def bodyX1 : Node :=
  .mk { tag := Tag.body } [] false [] [] [.mk { tag := Tag.div } [] false [] [] []]

def iframeX1 : Node := .mk { tag := Tag.iframe } [bodyX1] false [] [] []

def rootX1 : Node := .mk { tag := Tag.div } [] false [] [] [iframeX1]

def stX1 : St :=
  { ctx := some { nodeCount := 1, lastYieldTime := some 0, totalNodes := 5 },
    clkIdx := 2, events := [] }

def stX1after : St :=
  { ctx := some { nodeCount := 2, lastYieldTime := some 0, totalNodes := 5 },
    clkIdx := 2, events := [] }

/-- C1 counterexample: the `max_nodes` abort signal raised by the Governor
while recursively cloning the iframe body (first conjunct) does NOT
propagate out of the iframe clone — `cloneSingleNode` catches it and
returns a shallow frame clone (second conjunct), refuting "the signal
propagates out of the entire recursive call tree".  The whole capture still
fails (third conjunct), but only because a later tick re-raises the
monotone limit condition, not because the original signal escaped. -/
theorem claim_C1_counterexample :
    CloneNode.cloneNode oX1 true bodyX1 stX1 = (.error .max_nodes, stX1after) ∧
    CloneNode.cloneSingleNode oX1 iframeX1 stX1 =
      (.ok (.elem { tag := Tag.iframe } []), stX1after) ∧
    (Index.capture oX1 rootX1).1 = .error .max_nodes := by
  refine ⟨?_, ?_, ?_⟩ <;>
    simp [Index.capture, Index.initializeOptions, Index.checkDOMComplexity,
      Index.estimateDOMComplexity, Index.countElems, Index.countElemsL,
      CloneNode.cloneNode, CloneNode.cloneSingleNode, CloneNode.cloneChildren,
      CloneNode.cloneList, CloneNode.maybeYieldToMain, CloneNode.checkLimits,
      CloneNode.childrenSource, CloneNode.cTag, CloneNode.decorate,
      CloneNode.ensureSVGSymbols, CloneNode.ensureLoop, CloneNode.usesOf,
      CloneNode.usesIn, CloneNode.usesInL, CloneNode.appendChildren,
      CloneNode.setChildren, EmbedImages.embedImages, EmbedImages.embedChildren,
      EmbedImages.maybeYieldToMain, oX1, bodyX1, iframeX1, rootX1, stX1,
      stX1after, truthyN, truthyOpt, dateNow, Node.nd, Node.children]

/-- C1 as amended.  An abort signal raised by the Governor propagates out of
the recursive call tree — a tick abort or a child-clone abort aborts the
whole children loop with no partial child list (conjuncts 2–3), and a
stage abort aborts that node's entire pipeline with no clone returned
(conjuncts 4–5) — EXCEPT across a nested-document boundary: an abort
raised while recursively cloning an iframe body is caught by the frame
clone's indiscriminate failure recovery and degrades to a shallow clone of
the frame element (conjunct 1), so that particular signal does not fail
the capture by itself. -/
theorem claim_C1 :
    (∀ (o : Opts) (nd : NData) (b : Node) (fbt : List Node) (hs : Bool)
        (sh asg cs : List Node) (st st' : St) (e : AbortReason),
      nd.tag = Tag.iframe →
      CloneNode.cloneNode o true b st = (.error e, st') →
      CloneNode.cloneSingleNode o (.mk nd (b :: fbt) hs sh asg cs) st =
        (.ok (.elem nd []), st')) ∧
    (∀ (o : Opts) (ch : Node) (rest : List Node) (st st1 : St) (e : AbortReason),
      CloneNode.maybeYieldToMain o st = (.error e, st1) →
      CloneNode.cloneList o (ch :: rest) st = (.error e, st1)) ∧
    (∀ (o : Opts) (ch : Node) (rest : List Node) (st st1 st2 : St) (b : Bool)
        (e : AbortReason),
      CloneNode.maybeYieldToMain o st = (.ok b, st1) →
      CloneNode.cloneNode o false ch st1 = (.error e, st2) →
      CloneNode.cloneList o (ch :: rest) st = (.error e, st2)) ∧
    (∀ (o : Opts) (r : Bool) (n : Node) (st st' : St) (e : AbortReason),
      (!r && (match o.filter with | some f => !f n | none => false)) = false →
      CloneNode.cloneSingleNode o n st = (.error e, st') →
      CloneNode.cloneNode o r n st = (.error e, st')) ∧
    (∀ (o : Opts) (r : Bool) (n : Node) (st st1 st2 : St) (c1 : CTree)
        (e : AbortReason),
      (!r && (match o.filter with | some f => !f n | none => false)) = false →
      CloneNode.cloneSingleNode o n st = (.ok c1, st1) →
      CloneNode.cloneChildren o n c1 st1 = (.error e, st2) →
      CloneNode.cloneNode o r n st = (.error e, st2)) := by
  refine ⟨?_, ?_, ?_, ?_, ?_⟩
  · intro o nd b fbt hs sh asg cs st st' e hnd herr
    unfold CloneNode.cloneSingleNode
    rw [if_neg (by rw [hnd]; decide), if_neg (by rw [hnd]; decide),
      if_pos hnd]
    simp only [herr]
  · intro o ch rest st st1 e herr
    unfold CloneNode.cloneList
    simp only [herr]
  · intro o ch rest st st1 st2 b e hok herr
    unfold CloneNode.cloneList
    simp only [hok, herr]
  · intro o r n st st' e hnf herr
    unfold CloneNode.cloneNode
    rw [if_neg (by rw [hnf]; decide)]
    simp only [herr]
  · intro o r n st st1 st2 c1 e hnf hok herr
    unfold CloneNode.cloneNode
    rw [if_neg (by rw [hnf]; decide)]
    simp only [hok, herr]

/-- Concrete inputs for the C1 witness: `maxNodes = 1`, counter at 0, an
iframe whose body has one child — the body clone aborts at its first tick
and the frame clone still returns a shallow clone. -/
def oW1 : Opts := { nonBlocking := true, maxNodes := 1 }

def bW1 : Node :=
  .mk { tag := Tag.body } [] false [] [] [.mk { tag := Tag.div } [] false [] [] []]

def stW1 : St :=
  { ctx := some { nodeCount := 0, lastYieldTime := none, totalNodes := 0 },
    clkIdx := 0, events := [] }

def stW1after : St :=
  { ctx := some { nodeCount := 1, lastYieldTime := none, totalNodes := 0 },
    clkIdx := 0, events := [] }

/-- Closed instance for the amended C1 at a concrete aborting body clone. -/
theorem claim_C1_witness :
    CloneNode.cloneSingleNode oW1
      (.mk { tag := Tag.iframe } [bW1] false [] [] []) stW1 =
      (.ok (.elem { tag := Tag.iframe } []), stW1after) :=
  claim_C1.1 oW1 { tag := Tag.iframe } bW1 [] false [] [] [] stW1 stW1after
    .max_nodes rfl
    (by simp [CloneNode.cloneNode, CloneNode.cloneSingleNode,
      CloneNode.cloneChildren, CloneNode.cloneList, CloneNode.maybeYieldToMain,
      CloneNode.checkLimits, CloneNode.childrenSource, CloneNode.cTag,
      CloneNode.decorate, CloneNode.ensureSVGSymbols, CloneNode.ensureLoop,
      CloneNode.usesOf, CloneNode.usesIn, CloneNode.usesInL,
      CloneNode.appendChildren, CloneNode.setChildren, oW1, bW1, stW1,
      stW1after, truthyN, truthyOpt, dateNow, Node.nd, Node.children])

namespace CloneNode

/-- A computed-style value as the per-property loop of `cloneCSSStyle` sees
it: a length whose text ends in `px` (with numeric part `q`, i.e. what
`parseFloat(value.substring(0, value.length - 2))` yields), or any other
value text. -/
inductive CssV where
  | px (q : ℚ)
  | other (s : String)
deriving DecidableEq, Repr

/-- The three value adjustments of `cloneCSSStyle`'s allow-list branch, in
source order: `font-size` values ending in `px` become
`Math.floor(parseFloat(...)) - 0.1` re-suffixed with `px`; an `inline`
display on an iframe becomes `block`; a `d` property with a truthy `d`
attribute on the clone becomes the `path(...)` function of that attribute. -/
def adjustStyleValue (isIFrame : Bool) (dAttr : Option String) (name : String)
    (v : CssV) : CssV :=
  let v1 : CssV :=
    if name = "font-size" then
      match v with
      | .px q => .px ((⌊q⌋ : ℚ) - 1 / 10)
      | w => w
    else v
  let v2 : CssV :=
    if isIFrame ∧ name = "display" ∧ v1 = .other "inline" then .other "block" else v1
  match dAttr with
  | some a => if name = "d" ∧ a ≠ "" then .other ("path(" ++ a ++ ")") else v2
  | none => v2

/-- The allow-list branch of cloneCSSStyle: for each property name in
`getStyleProperties(options)`, read the source style's value, apply the
adjustments, and set it on the target with the source's priority. -/
def cloneCSSStyle (isIFrame : Bool) (dAttr : Option String) (props : List String)
    (sourceStyle : String → CssV) (prio : String → String) :
    List (String × CssV × String) :=
  props.map fun name =>
    (name, adjustStyleValue isIFrame dAttr name (sourceStyle name), prio name)

end CloneNode

/-- C5 counterexample: a computed `font-size` of `16px` is decorated to
`15.9px` (floor minus a TENTH of a pixel), not the `15.99px` (floor minus a
hundredth, 0.01px) the claim states: the source computes
`Math.floor(parseFloat(value)) - 0.1`. -/
theorem claim_C5_counterexample :
    CloneNode.cloneCSSStyle false none ["font-size"] (fun _ => .px 16) (fun _ => "") =
      [("font-size", .px (159 / 10), "")] ∧
    ¬((159 / 10 : ℚ) = (⌊(16 : ℚ)⌋ : ℚ) - 1 / 100) := by
  constructor
  · simp only [CloneNode.cloneCSSStyle, CloneNode.adjustStyleValue, List.map_cons,
      List.map_nil]
    norm_num
  · norm_num

/-- C5 as amended: for every node decorated through the per-property
allow-list path, a `font-size` value ending in `px` is replaced by the
value obtained by flooring its numeric part and then reducing it by a
TENTH of a pixel (0.1px). -/
theorem claim_C5 (isIFrame : Bool) (dAttr : Option String) (props : List String)
    (sourceStyle : String → CloneNode.CssV) (prio : String → String) (q : ℚ)
    (hmem : "font-size" ∈ props)
    (hval : sourceStyle "font-size" = CloneNode.CssV.px q) :
    ("font-size", CloneNode.CssV.px ((⌊q⌋ : ℚ) - 1 / 10), prio "font-size") ∈
      CloneNode.cloneCSSStyle isIFrame dAttr props sourceStyle prio := by
  unfold CloneNode.cloneCSSStyle
  refine List.mem_map.2 ⟨"font-size", hmem, ?_⟩
  unfold CloneNode.adjustStyleValue
  rw [hval]
  cases dAttr with
  | none => simp
  | some a => simp

/-- Closed instance for the amended C5: `16px` becomes `15.9px`. -/
theorem claim_C5_witness :
    ("font-size", CloneNode.CssV.px ((⌊(16 : ℚ)⌋ : ℚ) - 1 / 10),
      (fun _ : String => "priority") "font-size") ∈
      CloneNode.cloneCSSStyle false none ["font-size"] (fun _ => .px 16)
        (fun _ => "priority") :=
  claim_C5 false none ["font-size"] (fun _ => .px 16) (fun _ => "priority") 16
    (by decide) rfl

namespace CloneNode

mutual

/-- Element payloads appearing in a clone, in document order (still images
and character-data nodes carry no source payload). -/
def cloneDatas : CTree → List NData
  | .elem nd cs => nd :: cloneDatasL cs
  | .img _ cs => cloneDatasL cs
  | .text _ => []

def cloneDatasL : List CTree → List NData
  | [] => []
  | c :: t => cloneDatas c ++ cloneDatasL t

end

mutual

/-- The source tree contains no vector-graphic (svg) element in any of its
node lists. -/
def noSvg : Node → Bool
  | .mk nd fb _ sh asg cs =>
    !decide (nd.tag = Tag.svg) && noSvgL fb && noSvgL sh && noSvgL asg && noSvgL cs

def noSvgL : List Node → Bool
  | [] => true
  | m :: t => noSvg m && noSvgL t

end

mutual

/-- Element payloads allowed to appear in a clone of `n` taken as a
sub-root under filter `f`: the node's own payload, recursively the allowed
payloads of a frame's nested-document body (cloned as a sub-root, so not
itself filtered), and recursively the allowed payloads of exactly those
selected children that pass the filter. -/
def allowedDatas (f : Node → Bool) : Node → List NData
  | .mk nd [] hs sh asg cs =>
      nd :: allowedList f (childrenSource (.mk nd [] hs sh asg cs))
  | .mk nd (b :: fbt) hs sh asg cs =>
      nd :: ((if nd.tag = Tag.iframe then allowedDatas f b else []) ++
        allowedList f (childrenSource (.mk nd (b :: fbt) hs sh asg cs)))
termination_by n => (Node.size n, 1)
decreasing_by
  all_goals simp_wf
  all_goals first
    | (apply Prod.Lex.left
       first
         | apply Node.childrenSource_sizeL_lt
         | (simp [Node.size, Node.sizeL]; omega))
    | (apply Prod.Lex.right; omega)
    | (simp [Node.size, Node.sizeL]; omega)
    | omega

def allowedList (f : Node → Bool) : List Node → List NData
  | [] => []
  | ch :: t => (if f ch then allowedDatas f ch else []) ++ allowedList f t
termination_by l => (Node.sizeL l, 0)
decreasing_by
  all_goals simp_wf
  all_goals first
    | (apply Prod.Lex.left
       first
         | apply Node.childrenSource_sizeL_lt
         | (simp [Node.size, Node.sizeL]; omega))
    | (apply Prod.Lex.right; omega)
    | (simp [Node.size, Node.sizeL]; omega)
    | omega

end

theorem cloneDatasL_append (a b : List CTree) :
    cloneDatasL (a ++ b) = cloneDatasL a ++ cloneDatasL b := by
  induction a with
  | nil => simp [cloneDatasL]
  | cons c t ih => simp [cloneDatasL, ih]

theorem cloneDatas_appendChildren (c : CTree) (l : List CTree) :
    cloneDatas (appendChildren c l) ⊆ cloneDatas c ++ cloneDatasL l := by
  cases c <;>
    simp [appendChildren, cloneDatas, cloneDatasL_append, List.Subset.refl]

theorem cloneDatas_decorate (n : Node) (c : CTree) :
    cloneDatas (decorate n c) ⊆ cloneDatas c := by
  unfold decorate
  split_ifs with h
  · cases c <;> simp [setChildren, cloneDatas, cloneDatasL]
  · exact List.Subset.refl _

theorem noSvg_parts (nd : NData) (fb sh asg cs : List Node) (hs : Bool)
    (h : noSvg (.mk nd fb hs sh asg cs) = true) :
    nd.tag ≠ Tag.svg ∧ noSvgL fb = true ∧ noSvgL sh = true ∧
      noSvgL asg = true ∧ noSvgL cs = true := by
  rw [noSvg] at h
  simp only [Bool.and_eq_true, Bool.not_eq_true', decide_eq_false_iff_not] at h
  exact ⟨h.1.1.1.1, h.1.1.1.2, h.1.1.2, h.1.2, h.2⟩

theorem noSvgL_cons (m : Node) (t : List Node) (h : noSvgL (m :: t) = true) :
    noSvg m = true ∧ noSvgL t = true := by
  rw [noSvgL, Bool.and_eq_true] at h
  exact h

theorem noSvg_childrenSource (n : Node) (h : noSvg n = true) :
    noSvgL (childrenSource n) = true := by
  cases n with
  | mk nd fb hs sh asg cs =>
    obtain ⟨-, hfb, hsh, hasg, hcs⟩ := noSvg_parts nd fb sh asg cs hs h
    cases fb with
    | nil =>
      rw [childrenSource]
      split_ifs <;> assumption
    | cons b fbt =>
      obtain ⟨hb, -⟩ := noSvgL_cons b fbt hfb
      have hbc : noSvgL b.children = true := by
        cases b with
        | mk bnd bfb bhs bsh basg bcs =>
          obtain ⟨-, -, -, -, h5⟩ := noSvg_parts bnd bfb bsh basg bcs bhs hb
          exact h5
      rw [childrenSource]
      split_ifs <;> assumption

theorem cloneDatas_shallow_subset (f : Node → Bool) (nd : NData) (fb : List Node)
    (hs : Bool) (sh asg cs : List Node) :
    cloneDatas (.elem nd []) ⊆ allowedDatas f (.mk nd fb hs sh asg cs) := by
  cases fb <;> simp [cloneDatas, cloneDatasL, allowedDatas]

theorem allowedList_childrenSource_subset (f : Node → Bool) (n : Node) :
    allowedList f (childrenSource n) ⊆ allowedDatas f n := by
  cases n with
  | mk nd fb hs sh asg cs =>
    cases fb with
    | nil =>
      rw [allowedDatas]
      intro a ha
      exact List.mem_cons_of_mem _ ha
    | cons b fbt =>
      rw [allowedDatas]
      intro a ha
      exact List.mem_cons_of_mem _ (List.mem_append_right _ ha)

/-- Element payloads that symbol-definition cloning can contribute: each
definition in the document's table, cloned as a filter-respecting
sub-root, yields payloads within its own allowed set. -/
def symDatas (o : Opts) (f : Node → Bool) : List NData :=
  (o.symbolDefs.map fun p => allowedDatas f p.2).join

/-- Every element payload the symbol pass can add to a clone: the two
synthesized container payloads (the hidden `svg` element and its `defs`
child) and the definitions' allowed payloads. -/
def symContrib (o : Opts) (f : Node → Bool) : List NData :=
  { tag := Tag.svg } :: { tag := Tag.defs } :: symDatas o f

theorem symbolLookup_allowed_subset (o : Opts) (f : Node → Bool) (id : String)
    (defn : Node) (h : symbolLookup o id = some defn) :
    allowedDatas f defn ⊆ symDatas o f := by
  intro a ha
  unfold symbolLookup at h
  rcases hf2 : o.symbolDefs.find? (fun p => p.1 == id) with _ | p
  · rw [hf2] at h
    cases h
  · rw [hf2] at h
    have hmem : p ∈ o.symbolDefs := List.mem_of_find?_eq_some hf2
    have hpd : p.2 = defn := by simpa using h
    unfold symDatas
    rw [List.mem_join]
    exact ⟨allowedDatas f p.2, List.mem_map_of_mem _ hmem, hpd ▸ ha⟩

theorem symbolLookup_noSvg (o : Opts) (id : String) (defn : Node)
    (hdefs : ∀ p ∈ o.symbolDefs, noSvg p.2 = true)
    (h : symbolLookup o id = some defn) : noSvg defn = true := by
  unfold symbolLookup at h
  rcases hf2 : o.symbolDefs.find? (fun p => p.1 == id) with _ | p
  · rw [hf2] at h
    cases h
  · rw [hf2] at h
    have hmem : p ∈ o.symbolDefs := List.mem_of_find?_eq_some hf2
    have hpd : p.2 = defn := by simpa using h
    rw [← hpd]
    exact hdefs p hmem

theorem subset_append_mono_left {α : Type} {l A A2 S : List α}
    (h : l ⊆ A ++ S) (hA : A ⊆ A2) : l ⊆ A2 ++ S := by
  intro a ha
  rcases List.mem_append.1 (h ha) with h1 | h1
  · exact List.mem_append_left _ (hA h1)
  · exact List.mem_append_right _ h1

theorem subset_append_trans {α : Type} {l m A S : List α}
    (h1 : l ⊆ m ++ S) (h2 : m ⊆ A ++ S) : l ⊆ A ++ S := by
  intro a ha
  rcases List.mem_append.1 (h1 ha) with h | h
  · exact h2 h
  · exact List.mem_append_right _ h

theorem subset_absorb {α : Type} {l m S : List α}
    (h1 : l ⊆ m ++ S) (h2 : m ⊆ S) : l ⊆ S := by
  intro a ha
  rcases List.mem_append.1 (h1 ha) with h | h
  · exact h2 h
  · exact h

end CloneNode

theorem cloneDatas_subset (f : Node → Bool) : ∀ d : Nat, ∀ o : Opts,
    o.defsDepth ≤ d → o.filter = some f →
    (∀ p ∈ o.symbolDefs, CloneNode.noSvg p.2 = true) →
    ((∀ (uses : List NData) (c : CTree) (processed : List (String × CTree))
        (st : St) (res : List (String × CTree)) (st' : St),
        CloneNode.cloneDatasL (processed.map Prod.snd) ⊆ CloneNode.symContrib o f →
        CloneNode.ensureLoop o c uses processed st = (.ok res, st') →
        CloneNode.cloneDatasL (res.map Prod.snd) ⊆ CloneNode.symContrib o f) ∧
     (∀ (c : CTree) (st : St) (c4 : CTree) (st' : St),
        CloneNode.ensureSVGSymbols o c st = (.ok c4, st') →
        CloneNode.cloneDatas c4 ⊆
          CloneNode.cloneDatas c ++ CloneNode.symContrib o f)) ∧
    ∀ k : Nat,
      (∀ n : Node, Node.size n ≤ k → CloneNode.noSvg n = true →
        ∀ (r : Bool) (st : St) (c : CTree) (st' : St),
        CloneNode.cloneNode o r n st = (.ok (some c), st') →
        CloneNode.cloneDatas c ⊆
          CloneNode.allowedDatas f n ++ CloneNode.symContrib o f) ∧
      (∀ n : Node, Node.size n ≤ k → CloneNode.noSvg n = true →
        ∀ (st : St) (c : CTree) (st' : St),
        CloneNode.cloneSingleNode o n st = (.ok c, st') →
        CloneNode.cloneDatas c ⊆
          CloneNode.allowedDatas f n ++ CloneNode.symContrib o f) ∧
      (∀ n : Node, Node.size n ≤ k → CloneNode.noSvg n = true →
        ∀ (c : CTree) (st : St) (c2 : CTree) (st' : St),
        CloneNode.cloneDatas c ⊆
          CloneNode.allowedDatas f n ++ CloneNode.symContrib o f →
        CloneNode.cloneChildren o n c st = (.ok c2, st') →
        CloneNode.cloneDatas c2 ⊆
          CloneNode.allowedDatas f n ++ CloneNode.symContrib o f) ∧
      (∀ l : List Node, Node.sizeL l ≤ k → CloneNode.noSvgL l = true →
        ∀ (st : St) (cl : List CTree) (st' : St),
        CloneNode.cloneList o l st = (.ok cl, st') →
        CloneNode.cloneDatasL cl ⊆
          CloneNode.allowedList f l ++ CloneNode.symContrib o f) := by
  intro d
  induction d using Nat.strong_induction_on with
  | _ d ihd =>
    intro o hd hf hdefs
    have PE : ∀ (uses : List NData) (c : CTree) (processed : List (String × CTree))
        (st : St) (res : List (String × CTree)) (st' : St),
        CloneNode.cloneDatasL (processed.map Prod.snd) ⊆ CloneNode.symContrib o f →
        CloneNode.ensureLoop o c uses processed st = (.ok res, st') →
        CloneNode.cloneDatasL (res.map Prod.snd) ⊆ CloneNode.symContrib o f := by
      intro uses
      induction uses with
      | nil =>
        intro c processed st res st' hp h
        simp only [CloneNode.ensureLoop, Prod.mk.injEq, Except.ok.injEq] at h
        rw [← h.1]
        exact hp
      | cons u rest ihu =>
        intro c processed st res st' hp h
        unfold CloneNode.ensureLoop at h
        rcases hty : CloneNode.maybeYieldToMain o st with ⟨r, st1⟩
        rw [hty] at h
        cases r with
        | error e => exact absurd h (by simp)
        | ok b =>
          dsimp only at h
          cases hh : u.useHref with
          | none =>
            rw [hh] at h
            exact ihu c processed st1 res st' hp h
          | some id =>
            rw [hh] at h
            dsimp only at h
            by_cases hid : id = ""
            · rw [if_pos hid] at h
              exact ihu c processed st1 res st' hp h
            · rw [if_neg hid] at h
              rcases hsl : CloneNode.symbolLookup o id with _ | defn
              · rw [hsl] at h
                exact ihu c processed st1 res st' hp h
              · rw [hsl] at h
                dsimp only at h
                by_cases hg : (!CloneNode.querySelectorHit c id &&
                    (processed.find? fun p => p.1 == id).isNone) = true
                · rw [if_pos hg] at h
                  by_cases hfd : 0 < o.defsDepth
                  · rw [dif_pos hfd] at h
                    have hlt : o.defsDepth - 1 < d := by omega
                    rcases hcs : CloneNode.cloneNode
                        { o with defsDepth := o.defsDepth - 1 } true defn st1
                      with ⟨cr, st2⟩
                    rw [hcs] at h
                    cases cr with
                    | error e => exact absurd h (by simp)
                    | ok copt =>
                      cases copt with
                      | none =>
                        dsimp only at h
                        exact ihu c processed st2 res st' hp h
                      | some dc =>
                        dsimp only at h
                        have hsvgd : CloneNode.noSvg defn = true :=
                          CloneNode.symbolLookup_noSvg o id defn hdefs hsl
                        have hdc : CloneNode.cloneDatas dc ⊆
                            CloneNode.allowedDatas f defn ++ CloneNode.symContrib o f :=
                          ((ihd (o.defsDepth - 1) hlt
                            { o with defsDepth := o.defsDepth - 1 } le_rfl hf hdefs).2
                            (Node.size defn)).1 defn le_rfl hsvgd true st1 dc st2 hcs
                        have hdcS : CloneNode.cloneDatas dc ⊆
                            CloneNode.symContrib o f := by
                          refine CloneNode.subset_absorb hdc ?_
                          intro a ha
                          exact List.mem_cons_of_mem _ (List.mem_cons_of_mem _
                            (CloneNode.symbolLookup_allowed_subset o f id defn hsl ha))
                        have hp2 : CloneNode.cloneDatasL
                            ((processed ++ [(id, dc)]).map Prod.snd) ⊆
                            CloneNode.symContrib o f := by
                          rw [List.map_append, CloneNode.cloneDatasL_append,
                            List.append_subset]
                          refine ⟨hp, ?_⟩
                          simp only [List.map_cons, List.map_nil,
                            CloneNode.cloneDatasL, List.append_nil]
                          exact hdcS
                        exact ihu c (processed ++ [(id, dc)]) st2 res st' hp2 h
                  · rw [dif_neg hfd] at h
                    exact ihu c processed st1 res st' hp h
                · rw [if_neg hg] at h
                  exact ihu c processed st1 res st' hp h
    have PES : ∀ (c : CTree) (st : St) (c4 : CTree) (st' : St),
        CloneNode.ensureSVGSymbols o c st = (.ok c4, st') →
        CloneNode.cloneDatas c4 ⊆
          CloneNode.cloneDatas c ++ CloneNode.symContrib o f := by
      intro c st c4 st' h
      unfold CloneNode.ensureSVGSymbols at h
      by_cases hu : (CloneNode.usesOf c).isEmpty = true
      · rw [if_pos hu] at h
        simp only [Prod.mk.injEq, Except.ok.injEq] at h
        rw [← h.1]
        exact List.subset_append_left _ _
      · rw [if_neg hu] at h
        rcases hres : CloneNode.ensureLoop o c (CloneNode.usesOf c) [] st
          with ⟨lr, st1⟩
        rw [hres] at h
        cases lr with
        | error e => exact absurd h (by simp)
        | ok processed =>
          dsimp only at h
          have hpS : CloneNode.cloneDatasL (processed.map Prod.snd) ⊆
              CloneNode.symContrib o f :=
            PE (CloneNode.usesOf c) c [] st processed st1
              (by simp [CloneNode.cloneDatasL]) hres
          by_cases hn : ((processed.map Prod.snd).isEmpty) = true
          · rw [if_pos hn] at h
            simp only [Prod.mk.injEq, Except.ok.injEq] at h
            rw [← h.1]
            exact List.subset_append_left _ _
          · rw [if_neg hn] at h
            simp only [Prod.mk.injEq, Except.ok.injEq] at h
            rw [← h.1]
            refine (CloneNode.cloneDatas_appendChildren c _).trans ?_
            rw [List.append_subset]
            refine ⟨List.subset_append_left _ _, ?_⟩
            have hcont : CloneNode.cloneDatasL
                [CTree.elem { tag := Tag.svg } [CTree.elem { tag := Tag.defs }
                  (processed.map Prod.snd)]] ⊆ CloneNode.symContrib o f := by
              intro a ha
              simp only [CloneNode.cloneDatasL, CloneNode.cloneDatas,
                List.append_nil, List.mem_cons] at ha
              rcases ha with rfl | rfl | ha
              · unfold CloneNode.symContrib
                exact List.mem_cons_self _ _
              · unfold CloneNode.symContrib
                exact List.mem_cons_of_mem _ (List.mem_cons_self _ _)
              · exact hpS ha
            exact hcont.trans (List.subset_append_right _ _)
    refine ⟨⟨PE, PES⟩, ?_⟩
    intro k
    induction k using Nat.strong_induction_on with
    | _ k ih =>
      have PL : ∀ l : List Node, Node.sizeL l ≤ k → CloneNode.noSvgL l = true →
          ∀ (st : St) (cl : List CTree) (st' : St),
          CloneNode.cloneList o l st = (.ok cl, st') →
          CloneNode.cloneDatasL cl ⊆
            CloneNode.allowedList f l ++ CloneNode.symContrib o f := by
        intro l
        induction l with
        | nil =>
          intro _ _ st cl st' h
          simp only [CloneNode.cloneList, Prod.mk.injEq, Except.ok.injEq] at h
          rw [← h.1]
          simp [CloneNode.cloneDatasL]
        | cons ch rest ihl =>
          intro hle hsvgl st cl st' h
          obtain ⟨hch, hrest⟩ := CloneNode.noSvgL_cons ch rest hsvgl
          have hsz : Node.sizeL (ch :: rest) = 1 + Node.size ch + Node.sizeL rest := by
            rw [Node.sizeL]
          have hchk : Node.size ch < k := by omega
          unfold CloneNode.cloneList at h
          rcases hmy : CloneNode.maybeYieldToMain o st with ⟨myr, st1⟩
          rw [hmy] at h
          cases myr with
          | error e => exact absurd h (by simp)
          | ok b =>
            dsimp only at h
            rcases hcn : CloneNode.cloneNode o false ch st1 with ⟨cnr, st2⟩
            rw [hcn] at h
            cases cnr with
            | error e => exact absurd h (by simp)
            | ok copt =>
              cases copt with
              | none =>
                dsimp only at h
                have hsub := ihl (by omega) hrest st2 cl st' h
                rw [CloneNode.allowedList]
                exact CloneNode.subset_append_mono_left hsub
                  (List.subset_append_right _ _)
              | some cc =>
                dsimp only at h
                rcases hrl : CloneNode.cloneList o rest st2 with ⟨rlr, st3⟩
                rw [hrl] at h
                cases rlr with
                | error e => exact absurd h (by simp)
                | ok restC =>
                  simp only [Prod.mk.injEq, Except.ok.injEq] at h
                  rw [← h.1]
                  have hfch : f ch = true := by
                    by_contra hfc
                    rw [Bool.not_eq_true] at hfc
                    have hnone : CloneNode.cloneNode o false ch st1 =
                        (.ok none, st1) := by
                      unfold CloneNode.cloneNode
                      rw [if_pos (by rw [hf]; simp [hfc])]
                    rw [hcn] at hnone
                    simp at hnone
                  have h1 := (ih (Node.size ch) hchk).1 ch le_rfl hch false st1 cc st2 hcn
                  have h2 := ihl (by omega) hrest st2 restC st3 hrl
                  rw [CloneNode.cloneDatasL, CloneNode.allowedList, if_pos hfch]
                  exact List.append_subset.mpr
                    ⟨CloneNode.subset_append_mono_left h1
                      (List.subset_append_left _ _),
                     CloneNode.subset_append_mono_left h2
                      (List.subset_append_right _ _)⟩
      have PS : ∀ n : Node, Node.size n ≤ k → CloneNode.noSvg n = true →
          ∀ (st : St) (c : CTree) (st' : St),
          CloneNode.cloneSingleNode o n st = (.ok c, st') →
          CloneNode.cloneDatas c ⊆
            CloneNode.allowedDatas f n ++ CloneNode.symContrib o f := by
        intro n hle hsvg st c st' h
        cases n with
        | mk nd fb hs sh asg cs =>
          obtain ⟨htag, hfb, hsh, hasg, hcs⟩ :=
            CloneNode.noSvg_parts nd fb sh asg cs hs hsvg
          unfold CloneNode.cloneSingleNode at h
          split_ifs at h with h1 h2 h3
          · unfold CloneNode.cloneCanvasElement at h
            split_ifs at h with hb1 hb2
            · simp only [Prod.mk.injEq, Except.ok.injEq] at h
              rw [← h.1]
              exact (CloneNode.cloneDatas_shallow_subset f nd fb hs sh asg cs).trans
                (List.subset_append_left _ _)
            · simp only [Prod.mk.injEq, Except.ok.injEq] at h
              rw [← h.1]
              simp [CloneNode.cloneDatas, CloneNode.cloneDatasL]
            · simp only [Prod.mk.injEq, Except.ok.injEq] at h
              rw [← h.1]
              simp [CloneNode.cloneDatas, CloneNode.cloneDatasL]
          · unfold CloneNode.cloneVideoElement at h
            split_ifs at h with hb1
            · simp only [Prod.mk.injEq, Except.ok.injEq] at h
              rw [← h.1]
              simp [CloneNode.cloneDatas, CloneNode.cloneDatasL]
            · simp only [Prod.mk.injEq, Except.ok.injEq] at h
              rw [← h.1]
              simp [CloneNode.cloneDatas, CloneNode.cloneDatasL]
          · cases fb with
            | nil =>
              simp only [Prod.mk.injEq, Except.ok.injEq] at h
              rw [← h.1]
              exact (CloneNode.cloneDatas_shallow_subset f nd [] hs sh asg cs).trans
                (List.subset_append_left _ _)
            | cons b fbt =>
              obtain ⟨hb, -⟩ := CloneNode.noSvgL_cons b fbt hfb
              have hbk : Node.size b < k := by
                simp only [Node.size, Node.sizeL] at hle
                omega
              dsimp only at h
              rcases hbn : CloneNode.cloneNode o true b st with ⟨br, st1⟩
              rw [hbn] at h
              cases br with
              | error e =>
                dsimp only at h
                simp only [Prod.mk.injEq, Except.ok.injEq] at h
                rw [← h.1]
                exact (CloneNode.cloneDatas_shallow_subset f nd (b :: fbt)
                  hs sh asg cs).trans (List.subset_append_left _ _)
              | ok copt =>
                cases copt with
                | none =>
                  dsimp only at h
                  simp only [Prod.mk.injEq, Except.ok.injEq] at h
                  rw [← h.1]
                  exact (CloneNode.cloneDatas_shallow_subset f nd (b :: fbt)
                    hs sh asg cs).trans (List.subset_append_left _ _)
                | some cb =>
                  dsimp only at h
                  simp only [Prod.mk.injEq, Except.ok.injEq] at h
                  rw [← h.1]
                  have hsub := (ih (Node.size b) hbk).1 b le_rfl hb true st cb st1 hbn
                  refine CloneNode.subset_append_mono_left hsub ?_
                  intro a ha
                  rw [CloneNode.allowedDatas, if_pos h3]
                  exact List.mem_cons_of_mem _ (List.mem_append_left _ ha)
          · simp only [Prod.mk.injEq, Except.ok.injEq] at h
            rw [← h.1]
            exact (CloneNode.cloneDatas_shallow_subset f nd fb hs sh asg cs).trans
              (List.subset_append_left _ _)
      have PC : ∀ n : Node, Node.size n ≤ k → CloneNode.noSvg n = true →
          ∀ (c : CTree) (st : St) (c2 : CTree) (st' : St),
          CloneNode.cloneDatas c ⊆
            CloneNode.allowedDatas f n ++ CloneNode.symContrib o f →
          CloneNode.cloneChildren o n c st = (.ok c2, st') →
          CloneNode.cloneDatas c2 ⊆
            CloneNode.allowedDatas f n ++ CloneNode.symContrib o f := by
        intro n hle hsvg c st c2 st' hcsub h
        unfold CloneNode.cloneChildren at h
        by_cases h1 : CloneNode.cTag c = Tag.svg
        · rw [if_pos h1] at h
          simp only [Prod.mk.injEq, Except.ok.injEq] at h
          rw [← h.1]
          exact hcsub
        · rw [if_neg h1] at h
          by_cases h2 : ((CloneNode.childrenSource n).isEmpty ||
              decide (n.nd.tag = Tag.video)) = true
          · rw [if_pos h2] at h
            simp only [Prod.mk.injEq, Except.ok.injEq] at h
            rw [← h.1]
            exact hcsub
          · rw [if_neg h2] at h
            rcases hcl : CloneNode.cloneList o (CloneNode.childrenSource n) st
              with ⟨clr, st1⟩
            rw [hcl] at h
            cases clr with
            | error e => exact absurd h (by simp)
            | ok l =>
              simp only [Prod.mk.injEq, Except.ok.injEq] at h
              rw [← h.1]
              have hsvgcs := CloneNode.noSvg_childrenSource n hsvg
              have hszcs : Node.sizeL (CloneNode.childrenSource n) ≤ k :=
                le_trans (le_of_lt (CloneNode.Node.childrenSource_sizeL_lt n)) hle
              have hlsub := PL (CloneNode.childrenSource n) hszcs hsvgcs st l st1 hcl
              refine (CloneNode.cloneDatas_appendChildren c l).trans ?_
              rw [List.append_subset]
              exact ⟨hcsub, CloneNode.subset_append_mono_left hlsub
                (CloneNode.allowedList_childrenSource_subset f n)⟩
      refine ⟨?_, PS, PC, PL⟩
      intro n hle hsvg r st c st' h
      unfold CloneNode.cloneNode at h
      by_cases h1 : (!r && (match o.filter with
        | some f' => !f' n | none => false)) = true
      · rw [if_pos h1] at h
        exact absurd h (by simp)
      · rw [if_neg h1] at h
        dsimp only at h
        rcases hs1 : CloneNode.cloneSingleNode o n st with ⟨sr, st1⟩
        rw [hs1] at h
        cases sr with
        | error e => exact absurd h (by simp)
        | ok c1 =>
          dsimp only at h
          rcases hs2 : CloneNode.cloneChildren o n c1 st1 with ⟨cr, st2⟩
          rw [hs2] at h
          cases cr with
          | error e => exact absurd h (by simp)
          | ok c2 =>
            dsimp only at h
            rcases hs3 : CloneNode.ensureSVGSymbols o (CloneNode.decorate n c2) st2
              with ⟨er, st3⟩
            rw [hs3] at h
            cases er with
            | error e => exact absurd h (by simp)
            | ok c4 =>
              simp only [Prod.mk.injEq, Except.ok.injEq, Option.some.injEq] at h
              have hsubS := PS n hle hsvg st c1 st1 hs1
              have hsubC := PC n hle hsvg c1 st1 c2 st2 hsubS hs2
              have hdec : CloneNode.cloneDatas (CloneNode.decorate n c2) ⊆
                  CloneNode.allowedDatas f n ++ CloneNode.symContrib o f :=
                (CloneNode.cloneDatas_decorate n c2).trans hsubC
              have hens := PES (CloneNode.decorate n c2) st2 c4 st3 hs3
              rw [← h.1]
              exact CloneNode.subset_append_trans hens hdec

/-- C3 as amended.  With a configured filter, a source tree free of
vector-graphic (svg) elements, and a document whose symbol definitions are
likewise svg-free: (1) a non-root node rejected by the predicate is
returned as absent — no placeholder, so its entire subtree is missing from
the clone; (2) every element payload of any returned clone is drawn from
the allowed set of its source sub-root (the node itself, recursively a
frame's nested-document body, and recursively only those selected children
that pass the predicate) extended by the symbol pass's possible
contributions — the synthesized hidden svg/defs container payloads and the
allowed sets of the document's symbol definitions, which are cloned as
filter-respecting sub-roots.  In particular no node of the source tree
appears in the clone unless it and every ancestor below its sub-root
passed the predicate.  Both restrictions are necessary (see the
counterexample): an svg element that itself passes the filter is cloned by
a native deep copy that never consults the filter, and a resolvable `use`
reference makes the symbol pass append document-definition payloads lying
outside the source tree altogether. -/
theorem claim_C3 (o : Opts) (f : Node → Bool) (hf : o.filter = some f)
    (hdefs : ∀ p ∈ o.symbolDefs, CloneNode.noSvg p.2 = true) :
    (∀ (m : Node) (st : St), f m = false →
      CloneNode.cloneNode o false m st = (.ok none, st)) ∧
    (∀ n : Node, CloneNode.noSvg n = true →
      ∀ (r : Bool) (st : St) (c : CTree) (st' : St),
      CloneNode.cloneNode o r n st = (.ok (some c), st') →
      CloneNode.cloneDatas c ⊆
        CloneNode.allowedDatas f n ++ CloneNode.symContrib o f) := by
  constructor
  · intro m st hfm
    unfold CloneNode.cloneNode
    rw [if_pos (by rw [hf]; simp [hfm])]
  · intro n hsvg r st c st' h
    exact ((cloneDatas_subset f o.defsDepth o le_rfl hf hdefs).2 (Node.size n)).1
      n le_rfl hsvg r st c st' h

/-- Filter used by the C3 counterexample: reject input elements. -/
def fX3 : Node → Bool := fun m => !decide (m.nd.tag = Tag.input)

/-- An input element — rejected by the filter. -/
def nX3sub : Node := .mk { tag := Tag.input } [] false [] [] []

/-- An svg element whose only child is the rejected input element. -/
def nX3svg : Node := .mk { tag := Tag.svg } [] false [] [] [nX3sub]

/-- Root of the first C3 counterexample scenario. -/
def nX3 : Node := .mk { tag := Tag.div } [] false [] [] [nX3svg]

/-- Capture options for the first C3 counterexample scenario. -/
def oX3 : Opts := { filter := some fX3 }

/-- Initial state for the C3 counterexample. -/
def stX3 : St := ⟨none, 0, []⟩

/-- The clone produced for `nX3`: the deep copy of the svg subtree keeps the
rejected input element. -/
def cX3 : CTree := .elem { tag := Tag.div }
  [.elem { tag := Tag.svg } [.elem { tag := Tag.input } []]]

/-- The document definition for the second C3 counterexample scenario: a
textarea element registered under the id selector `#sym`. -/
def defX3 : Node :=
  .mk { tag := Tag.textarea, value := "DEF", selId := "#sym" } [] false [] [] []

/-- A `use` element referencing `#sym`. -/
def useX3 : Node := .mk { tag := Tag.use, useHref := some "#sym" } [] false [] [] []

/-- Root of the second C3 counterexample scenario: a div with a `use` child —
no svg element anywhere in the source tree. -/
def nX32 : Node := .mk { tag := Tag.div } [] false [] [] [useX3]

/-- Options for the second C3 counterexample scenario: the same filter, a
document resolving `#sym`, resolution depth 1. -/
def oX32 : Opts :=
  { filter := some fX3, symbolDefs := [("#sym", defX3)], defsDepth := 1 }

/-- The clone produced for `nX32`: the symbol pass appends the hidden
svg/defs container holding the cloned document definition. -/
def cX32 : CTree := .elem { tag := Tag.div }
  [.elem { tag := Tag.use, useHref := some "#sym" } [],
   .elem { tag := Tag.svg } [.elem { tag := Tag.defs }
     [.elem { tag := Tag.textarea, value := "DEF", selId := "#sym" }
       [.text "DEF"]]]]

/-- C3 counterexample, refuting the original claim in two independent ways.
Scenario 1 (conjuncts 1–3): the filter rejects the input element, yet
cloning its ancestor tree returns a clone in which the input element's
payload appears — the svg parent passes the filter and is cloned by the
native deep copy, which never consults the filter.  Scenario 2 (conjuncts
4–7): on an svg-free source whose `use` child resolves against the
document, the symbol pass appends a cloned document definition (and a
synthesized svg/defs container) to the clone — payloads that are not in
the source tree's allowed set at all, so the clone's shape is not a subset
of the source tree's shape. -/
theorem claim_C3_counterexample :
    fX3 nX3sub = false ∧
    CloneNode.cloneNode oX3 true nX3 stX3 = (.ok (some cX3), stX3) ∧
    ({ tag := Tag.input } : NData) ∈ CloneNode.cloneDatas cX3 ∧
    CloneNode.noSvg nX32 = true ∧
    CloneNode.cloneNode oX32 true nX32 stX3 = (.ok (some cX32), stX3) ∧
    ({ tag := Tag.textarea, value := "DEF", selId := "#sym" } : NData) ∈
      CloneNode.cloneDatas cX32 ∧
    ({ tag := Tag.textarea, value := "DEF", selId := "#sym" } : NData) ∉
      CloneNode.allowedDatas fX3 nX32 := by
  refine ⟨by decide, ?_, ?_, ?_, ?_, ?_, ?_⟩
  · simp [CloneNode.cloneNode, CloneNode.cloneSingleNode, CloneNode.cloneChildren,
      CloneNode.cloneList, CloneNode.maybeYieldToMain, CloneNode.checkLimits,
      CloneNode.childrenSource, CloneNode.cTag, CloneNode.decorate,
      CloneNode.ensureSVGSymbols, CloneNode.ensureLoop, CloneNode.usesOf,
      CloneNode.usesIn, CloneNode.usesInL, CloneNode.appendChildren,
      CloneNode.setChildren, CloneNode.deepCopy, CloneNode.deepCopyL,
      CloneNode.cloneCanvasElement, CloneNode.cloneVideoElement,
      CloneNode.symbolLookup, CloneNode.querySelectorHit, CloneNode.existsSel,
      CloneNode.existsSelL,
      oX3, fX3, nX3, nX3svg, nX3sub, stX3, cX3, truthyN, truthyOpt, dateNow,
      Node.nd, Node.children]
  · simp [CloneNode.cloneDatas, CloneNode.cloneDatasL, cX3]
  · simp [CloneNode.noSvg, CloneNode.noSvgL, nX32, useX3, Node.nd]
  · simp [CloneNode.cloneNode, CloneNode.cloneSingleNode, CloneNode.cloneChildren,
      CloneNode.cloneList, CloneNode.maybeYieldToMain, CloneNode.checkLimits,
      CloneNode.childrenSource, CloneNode.cTag, CloneNode.decorate,
      CloneNode.ensureSVGSymbols, CloneNode.ensureLoop, CloneNode.usesOf,
      CloneNode.usesIn, CloneNode.usesInL, CloneNode.appendChildren,
      CloneNode.setChildren, CloneNode.deepCopy, CloneNode.deepCopyL,
      CloneNode.cloneCanvasElement, CloneNode.cloneVideoElement,
      CloneNode.symbolLookup, CloneNode.querySelectorHit, CloneNode.existsSel,
      CloneNode.existsSelL, eq_false (by decide : ¬("" = "#sym")),
      eq_false (by decide : ¬("#sym" = "")),
      oX32, fX3, nX32, useX3, defX3, stX3, cX32, truthyN, truthyOpt, dateNow,
      Node.nd, Node.children]
  · simp [CloneNode.cloneDatas, CloneNode.cloneDatasL, cX32]
  · simp [CloneNode.allowedDatas, CloneNode.allowedList, CloneNode.childrenSource,
      fX3, nX32, useX3, Node.nd]

/-- Filter used by the C3 witness: reject input elements. -/
def fW3 : Node → Bool := fun m => !decide (m.nd.tag = Tag.input)

/-- A rejected element for the C3 witness. -/
def nW3reject : Node := .mk { tag := Tag.input } [] false [] [] []

/-- Root of the C3 witness: a div with a rejected input child and an
accepted div child; no svg anywhere. -/
def nW3 : Node := .mk { tag := Tag.div } [] false [] []
  [nW3reject, .mk { tag := Tag.div, value := "Y" } [] false [] [] []]

/-- Capture options for the C3 witness (no document symbol definitions). -/
def oW3 : Opts := { filter := some fW3 }

/-- Initial state for the C3 witness. -/
def stW3 : St := ⟨none, 0, []⟩

/-- The clone produced for `nW3`: the rejected child and its subtree are
absent, with no placeholder. -/
def cW3 : CTree := .elem { tag := Tag.div } [.elem { tag := Tag.div, value := "Y" } []]

/-- Closed instance for C3: the rejected input node clones to "absent", the
concrete capture of `nW3` drops it entirely, and the resulting clone's
payloads lie in the allowed set extended by the (here empty) symbol
contributions. -/
theorem claim_C3_witness :
    fW3 nW3reject = false ∧
    CloneNode.cloneNode oW3 false nW3reject stW3 = (.ok none, stW3) ∧
    CloneNode.noSvg nW3 = true ∧
    CloneNode.cloneNode oW3 true nW3 stW3 = (.ok (some cW3), stW3) ∧
    CloneNode.cloneDatas cW3 ⊆
      CloneNode.allowedDatas fW3 nW3 ++ CloneNode.symContrib oW3 fW3 := by
  have hclone : CloneNode.cloneNode oW3 true nW3 stW3 = (.ok (some cW3), stW3) := by
    simp [CloneNode.cloneNode, CloneNode.cloneSingleNode, CloneNode.cloneChildren,
      CloneNode.cloneList, CloneNode.maybeYieldToMain, CloneNode.checkLimits,
      CloneNode.childrenSource, CloneNode.cTag, CloneNode.decorate,
      CloneNode.ensureSVGSymbols, CloneNode.ensureLoop, CloneNode.usesOf,
      CloneNode.usesIn, CloneNode.usesInL, CloneNode.appendChildren,
      CloneNode.setChildren, CloneNode.deepCopy, CloneNode.deepCopyL,
      CloneNode.cloneCanvasElement, CloneNode.cloneVideoElement,
      CloneNode.symbolLookup, CloneNode.querySelectorHit, CloneNode.existsSel,
      CloneNode.existsSelL,
      oW3, fW3, nW3, nW3reject, stW3, cW3, truthyN, truthyOpt, dateNow,
      Node.nd, Node.children]
  have hsvg : CloneNode.noSvg nW3 = true := by
    simp [CloneNode.noSvg, CloneNode.noSvgL, nW3, nW3reject, Node.nd]
  have hdefs : ∀ p ∈ oW3.symbolDefs, CloneNode.noSvg p.2 = true := by
    intro p hp
    simp [oW3] at hp
  exact ⟨by decide,
    (claim_C3 oW3 fW3 rfl hdefs).1 nW3reject stW3 (by decide),
    hsvg,
    hclone,
    (claim_C3 oW3 fW3 rfl hdefs).2 nW3 hsvg true stW3 cW3 stW3 hclone⟩

namespace CloneNode

/-- A raster surface: dimensions and a pixel map (the value of a pixel at
column `x`, row `y`). -/
structure Canvas where
  width : Nat
  height : Nat
  pix : Nat → Nat → Nat

/-- ctx.getImageData(0, y, width, stripHeight): the strip of rows
`[y, y + h)` in strip-relative coordinates. -/
def getImageData (c : Canvas) (y h : Nat) : Nat → Nat → Nat :=
  fun x dy => c.pix x (y + dy)

/-- offCtx.putImageData(data, 0, y): overlay a strip of height `h` onto the
surface at row `y`. -/
def putImageData (surf : Nat → Nat → Nat) (data : Nat → Nat → Nat) (y h : Nat) :
    Nat → Nat → Nat :=
  fun px py => if y ≤ py ∧ py < y + h then data px (py - y) else surf px py

/-- STRIP_HEIGHT = 256: process 256 rows at a time. -/
def STRIP_HEIGHT : Nat := 256

/-- totalStrips = Math.ceil(height / STRIP_HEIGHT). -/
def totalStrips (height : Nat) : Nat := (height + STRIP_HEIGHT - 1) / STRIP_HEIGHT

/-- The strip loop of canvasToDataURLChunked: for each strip index, read the
strip `[i*256, i*256 + min 256 (height - i*256))` from the source context
and put it on the offscreen surface at the same row offset.  (The
`yieldToMain` await after every 4th strip in nonBlocking mode suspends but
does not touch any surface.) -/
def chunkLoop (c : Canvas) : List Nat → (Nat → Nat → Nat) → (Nat → Nat → Nat)
  | [], surf => surf
  | i :: rest, surf =>
    let y := i * STRIP_HEIGHT
    let stripHeight := min STRIP_HEIGHT (c.height - y)
    chunkLoop c rest (putImageData surf (getImageData c y stripHeight) y stripHeight)

/-- canvasToDataURLChunked at surface level: assemble the full-size
offscreen surface (initially transparent, modelled as all-zero) strip by
strip; the final `convertToBlob`/`FileReader` encode of the assembled
surface is the external encoding primitive and is outside the model. -/
def canvasToDataURLChunked (c : Canvas) : Canvas :=
  { width := c.width, height := c.height,
    pix := chunkLoop c (List.range (totalStrips c.height)) (fun _ _ => 0) }

/-- Row `y` lies in strip `i` of a surface of the given height. -/
def inStrip (height i y : Nat) : Prop :=
  i * STRIP_HEIGHT ≤ y ∧ y < i * STRIP_HEIGHT + min STRIP_HEIGHT (height - i * STRIP_HEIGHT)

instance (height i y : Nat) : Decidable (inStrip height i y) := by
  unfold inStrip
  infer_instance

theorem chunkLoop_pix (c : Canvas) (l : List Nat) (surf : Nat → Nat → Nat)
    (x y : Nat) :
    chunkLoop c l surf x y =
      if ∃ i ∈ l, inStrip c.height i y then c.pix x y else surf x y := by
  induction l generalizing surf with
  | nil => simp [chunkLoop]
  | cons i rest ih =>
    unfold chunkLoop
    rw [ih]
    by_cases hex : ∃ j ∈ rest, inStrip c.height j y
    · rw [if_pos hex, if_pos ⟨hex.choose, List.mem_cons_of_mem i hex.choose_spec.1,
        hex.choose_spec.2⟩]
    · rw [if_neg hex]
      by_cases hcur : inStrip c.height i y
      · rw [if_pos ⟨i, List.mem_cons_self i rest, hcur⟩]
        unfold putImageData getImageData
        obtain ⟨h1, h2⟩ := hcur
        rw [if_pos ⟨h1, h2⟩]
        congr 1
        omega
      · rw [if_neg (by
          rintro ⟨j, hj, hjs⟩
          rcases List.mem_cons.1 hj with hj | hj
          · exact hcur (hj ▸ hjs)
          · exact hex ⟨j, hj, hjs⟩)]
        unfold putImageData
        rw [if_neg (by
          intro hc
          exact hcur ⟨hc.1, hc.2⟩)]

end CloneNode

/-- C8.  For a non-empty raster surface above the 500,000-pixel threshold,
the chunked path produces a surface of the same dimensions whose every
pixel within the surface equals the source pixel — hence its encode is
pixel-equivalent to the synchronous single-shot encode of the source — and
the 256-row strips exactly tile the full height: every row below `height`
lies in exactly one strip. -/
theorem claim_C8 (c : CloneNode.Canvas) (harea : c.width * c.height > 500000) :
    (CloneNode.canvasToDataURLChunked c).width = c.width ∧
    (CloneNode.canvasToDataURLChunked c).height = c.height ∧
    (∀ x y, y < c.height →
      (CloneNode.canvasToDataURLChunked c).pix x y = c.pix x y) ∧
    (∀ y, y < c.height →
      ∃! i, i < CloneNode.totalStrips c.height ∧ CloneNode.inStrip c.height i y) := by
  refine ⟨rfl, rfl, ?_, ?_⟩
  · intro x y hy
    unfold CloneNode.canvasToDataURLChunked
    dsimp only
    rw [CloneNode.chunkLoop_pix]
    rw [if_pos ?_]
    refine ⟨y / CloneNode.STRIP_HEIGHT, List.mem_range.2 ?_, ?_, ?_⟩
    · unfold CloneNode.totalStrips CloneNode.STRIP_HEIGHT
      omega
    · unfold CloneNode.STRIP_HEIGHT
      omega
    · unfold CloneNode.STRIP_HEIGHT
      omega
  · intro y hy
    refine ⟨y / CloneNode.STRIP_HEIGHT, ⟨?_, ?_, ?_⟩, ?_⟩
    · unfold CloneNode.totalStrips CloneNode.STRIP_HEIGHT
      omega
    · unfold CloneNode.STRIP_HEIGHT
      omega
    · unfold CloneNode.STRIP_HEIGHT
      omega
    · rintro j ⟨hjlt, hj1, hj2⟩
      unfold CloneNode.STRIP_HEIGHT at hj1 hj2
      have hh : min 256 (c.height - j * 256) ≤ 256 := min_le_left _ _
      unfold CloneNode.STRIP_HEIGHT
      omega

namespace EmbedModel

/-- Modelled from the spec: a token of a style declaration text — an
external resource reference, an inline/data representation ("a
self-contained encoding of a resource's bytes embedded directly in a
value, requiring no external fetch"), or surrounding plain text. -/
inductive CssTok
  | ext (url : String)
  | inl (data : String)
  | txt (s : String)
deriving DecidableEq

/-- One declaration of a CSSStyleDeclaration: property name, tokenised
value text, priority flag. -/
structure StyleProp where
  name : String
  value : List CssTok
  priority : String
deriving DecidableEq

/-- The embed-relevant payload of a cloned element: whether it is an
image-bearing element (HTMLImageElement) or a vector-graphic image
reference (SVGImageElement), its src / href.baseVal / srcset / loading
attributes, and its inline style declarations. -/
structure EData where
  isImg : Bool := false
  isSvgImg : Bool := false
  src : String := ""
  href : String := ""
  srcset : String := ""
  loading : String := ""
  style : List StyleProp := []
deriving DecidableEq

/-- A cloned element tree carrying embed-relevant content. -/
inductive ETree
  | mk (d : EData) (children : List ETree)

/-- node.style.getPropertyValue(propName): value of the first declaration
with that name, empty when absent. -/
def getPropertyValue (style : List StyleProp) (propName : String) : List CssTok :=
  match style with
  | [] => []
  | p :: rest => if p.name == propName then p.value else getPropertyValue rest propName

/-- node.style.getPropertyPriority(propName). -/
def getPropertyPriority (style : List StyleProp) (propName : String) : String :=
  match style with
  | [] => ""
  | p :: rest => if p.name == propName then p.priority else getPropertyPriority rest propName

/-- node.style.setProperty(propName, value, priority): replace the
declaration with that name in place, or append a new one. -/
def setProperty (style : List StyleProp) (propName : String) (value : List CssTok)
    (priority : String) : List StyleProp :=
  match style with
  | [] => [⟨propName, value, priority⟩]
  | p :: rest =>
    if p.name == propName then ⟨propName, value, priority⟩ :: rest
    else p :: setProperty rest propName value priority

/-- Modelled from the spec: `embedResources` (module `embed-resources`,
which is not under src/) — "recurses into the declaration text, locates
every external-resource reference inside it, resolves each through the
external resource resolver, and substitutes the resolved inline form while
preserving the rest of the declaration text".  The external resolver
(`resourceToDataURL` composed with MIME detection) is the oracle
`resolver`. -/
def embedResources (resolver : String → String) (v : List CssTok) : List CssTok :=
  v.map fun t =>
    match t with
    | .ext url => .inl (resolver url)
    | t => t

/-- embedProp(propName, node, options): if the declaration text is truthy
(non-empty), embed its resources and set the property back with its
original priority; returns whether the property was present. -/
def embedProp (resolver : String → String) (propName : String) (d : EData) :
    EData × Bool :=
  if (getPropertyValue d.style propName).isEmpty then (d, false)
  else
    ({ d with
        style :=
          setProperty d.style propName
            (embedResources resolver (getPropertyValue d.style propName))
            (getPropertyPriority d.style propName) }, true)

/-- embedBackground(clonedNode, options): background || background-image,
then mask || -webkit-mask || mask-image || -webkit-mask-image, each chain
short-circuiting on the first property that was present. -/
def embedBackground (resolver : String → String) (d : EData) : EData :=
  let r1 := embedProp resolver "background" d
  let d1 := if r1.2 then r1.1 else (embedProp resolver "background-image" r1.1).1
  let r2 := embedProp resolver "mask" d1
  if r2.2 then r2.1
  else
    let r3 := embedProp resolver "-webkit-mask" r2.1
    if r3.2 then r3.1
    else
      let r4 := embedProp resolver "mask-image" r3.1
      if r4.2 then r4.1 else (embedProp resolver "-webkit-mask-image" r4.1).1

/-- embedImageNode(clonedNode, options): unless the node is an image
element with a non-data src or a vector image with a non-data href, return
unchanged; otherwise resolve the URL, force eager loading if lazy, clear
srcset and substitute the resolved value.  (The onload/onerror/decode
handler assignments carry no serialized content and are outside the
model.) -/
def embedImageNode (resolver : String → String) (d : EData) : EData :=
  if !(d.isImg && !isDataUrl d.src) && !(d.isSvgImg && !isDataUrl d.href) then d
  else
    let dataURL := resolver (if d.isImg then d.src else d.href)
    let d1 := if d.loading == "lazy" then { d with loading := "eager" } else d
    if d.isImg then { d1 with srcset := "", src := dataURL }
    else { d1 with href := dataURL }

mutual

/-- embedImages(clonedNode, options) at content level: embedBackground,
then embedImageNode, then recurse into children.  The Governor tick taken
before each child touches only the traversal context, never the clone
(shown on the state model above), so it does not appear at content
level. -/
def embedImages (resolver : String → String) : ETree → ETree
  | .mk d cs =>
    .mk (embedImageNode resolver (embedBackground resolver d))
      (embedChildren resolver cs)

/-- embedChildren: embed each child in order. -/
def embedChildren (resolver : String → String) : List ETree → List ETree
  | [] => []
  | t :: ts => embedImages resolver t :: embedChildren resolver ts

end

/-- A declaration-text token is in inline/data form (not an external
reference). -/
def tokInline : CssTok → Bool
  | .ext _ => false
  | .inl _ => true
  | .txt _ => true

/-- Every token of the declaration's value is already inline. -/
def propEmbedded (p : StyleProp) : Bool := p.value.all tokInline

/-- An element's own content is fully embedded: every style declaration is
inline and any image source / vector image reference is already a data
URL. -/
def dataEmbedded (d : EData) : Bool :=
  d.style.all propEmbedded && (!d.isImg || isDataUrl d.src) &&
    (!d.isSvgImg || isDataUrl d.href)

mutual

/-- The whole clone tree is fully embedded. -/
def fullyEmbedded : ETree → Bool
  | .mk d cs => dataEmbedded d && allEmbedded cs

/-- Every tree of the list is fully embedded. -/
def allEmbedded : List ETree → Bool
  | [] => true
  | t :: ts => fullyEmbedded t && allEmbedded ts

end

theorem embedResources_id (resolver : String → String) :
    ∀ v : List CssTok, v.all tokInline = true → embedResources resolver v = v := by
  intro v
  induction v with
  | nil => intro _; rfl
  | cons t ts ih =>
    intro h
    rw [List.all_cons, Bool.and_eq_true] at h
    unfold embedResources
    unfold embedResources at ih
    rw [List.map_cons, ih h.2]
    cases t with
    | ext u => simp [tokInline] at h
    | inl s => rfl
    | txt s => rfl

theorem setProperty_self (propName : String) :
    ∀ style : List StyleProp, getPropertyValue style propName ≠ [] →
    setProperty style propName (getPropertyValue style propName)
      (getPropertyPriority style propName) = style := by
  intro style
  induction style with
  | nil => intro hne; exact absurd rfl hne
  | cons p rest ih =>
    obtain ⟨pn, pv, pp⟩ := p
    intro hne
    by_cases hp : (pn == propName) = true
    · have hpn : pn = propName := by simpa using hp
      subst hpn
      simp [getPropertyValue, getPropertyPriority, setProperty]
    · simp only [getPropertyValue, hp] at hne
      simp [getPropertyValue, getPropertyPriority, setProperty, hp]
      exact ih (by simpa using hne)

theorem getPropertyValue_all (propName : String) :
    ∀ style : List StyleProp, style.all propEmbedded = true →
    (getPropertyValue style propName).all tokInline = true := by
  intro style
  induction style with
  | nil => intro _; rfl
  | cons p rest ih =>
    intro h
    rw [List.all_cons, Bool.and_eq_true] at h
    by_cases hp : (p.name == propName) = true
    · simp only [getPropertyValue, hp, if_true]
      exact h.1
    · simp only [getPropertyValue, hp, Bool.false_eq_true, if_false]
      exact ih h.2

theorem embedProp_fst (resolver : String → String) (d : EData)
    (h : d.style.all propEmbedded = true) (propName : String) :
    (embedProp resolver propName d).1 = d := by
  unfold embedProp
  by_cases he : (getPropertyValue d.style propName).isEmpty = true
  · rw [if_pos he]
  · rw [if_neg he]
    rw [embedResources_id resolver _ (getPropertyValue_all propName d.style h)]
    rw [setProperty_self propName d.style (by simpa [List.isEmpty_iff] using he)]

theorem embedBackground_embedded (resolver : String → String) (d : EData)
    (h : d.style.all propEmbedded = true) :
    embedBackground resolver d = d := by
  unfold embedBackground
  simp only [embedProp_fst resolver d h, ite_self]

theorem embedImageNode_embedded (resolver : String → String) (d : EData)
    (h1 : (!d.isImg || isDataUrl d.src) = true)
    (h2 : (!d.isSvgImg || isDataUrl d.href) = true) :
    embedImageNode resolver d = d := by
  have hg : (!(d.isImg && !isDataUrl d.src) && !(d.isSvgImg && !isDataUrl d.href)) = true := by
    revert h1 h2
    cases d.isImg <;> cases d.isSvgImg <;> cases isDataUrl d.src <;>
      cases isDataUrl d.href <;> simp
  unfold embedImageNode
  rw [if_pos hg]

theorem embedAll_embedded (resolver : String → String) : ∀ k : Nat,
    (∀ t : ETree, sizeOf t ≤ k → fullyEmbedded t = true →
      embedImages resolver t = t) ∧
    (∀ l : List ETree, sizeOf l ≤ k → allEmbedded l = true →
      embedChildren resolver l = l) := by
  intro k
  induction k using Nat.strong_induction_on with
  | _ k ih =>
    constructor
    · rintro ⟨d, cs⟩ hle hfe
      have hcs : sizeOf cs < k := by
        have h := hle
        simp only [ETree.mk.sizeOf_spec] at h
        omega
      rw [fullyEmbedded, Bool.and_eq_true] at hfe
      have hd := hfe.1
      rw [dataEmbedded, Bool.and_eq_true, Bool.and_eq_true] at hd
      rw [embedImages, embedBackground_embedded resolver d hd.1.1,
        embedImageNode_embedded resolver d hd.1.2 hd.2,
        (ih (sizeOf cs) hcs).2 cs le_rfl hfe.2]
    · intro l hle hae
      cases l with
      | nil => rw [embedChildren]
      | cons t ts =>
        have h1 : sizeOf t < k := by
          have h := hle
          simp only [List.cons.sizeOf_spec] at h
          omega
        have h2 : sizeOf ts < k := by
          have h := hle
          simp only [List.cons.sizeOf_spec] at h
          omega
        rw [allEmbedded, Bool.and_eq_true] at hae
        rw [embedChildren, (ih (sizeOf t) h1).1 t le_rfl hae.1,
          (ih (sizeOf ts) h2).2 ts le_rfl hae.2]

end EmbedModel

/-- C9.  Embedding is idempotent: on a clone tree that is already fully
embedded — every style declaration token inline and every image source /
vector image reference already a data URL — the resource embedder performs
no substitution and returns the tree unchanged (byte-identical), for any
resolver.  Hence running the embedder a second time on its own output of
such a tree changes nothing. -/
theorem claim_C9 (resolver : String → String) (t : EmbedModel.ETree)
    (h : EmbedModel.fullyEmbedded t = true) :
    EmbedModel.embedImages resolver t = t :=
  (EmbedModel.embedAll_embedded resolver (sizeOf t)).1 t le_rfl h

/-- A fully embedded element: a non-image element with already-inline
background and mask declarations, and one plain child. -/
def dW9 : EmbedModel.EData :=
  { style := [⟨"background", [EmbedModel.CssTok.inl "data:image/png;base64,BB",
      EmbedModel.CssTok.txt " no-repeat"], "important"⟩,
      ⟨"mask", [EmbedModel.CssTok.inl "data:image/svg+xml,CC"], ""⟩] }

/-- A small fully embedded tree. -/
def tW9 : EmbedModel.ETree := .mk dW9 [.mk {} []]

/-- Closed instance for C9: the embedder leaves the fully embedded tree
`tW9` unchanged. -/
theorem claim_C9_witness :
    EmbedModel.fullyEmbedded tW9 = true ∧
    EmbedModel.embedImages (fun _ => "data:resolved") tW9 = tW9 :=
  ⟨by
    simp [tW9, dW9, EmbedModel.fullyEmbedded, EmbedModel.allEmbedded,
      EmbedModel.dataEmbedded, EmbedModel.propEmbedded, EmbedModel.tokInline],
   claim_C9 (fun _ => "data:resolved") tW9
    (by
      simp [tW9, dW9, EmbedModel.fullyEmbedded, EmbedModel.allEmbedded,
        EmbedModel.dataEmbedded, EmbedModel.propEmbedded, EmbedModel.tokInline])⟩

/-- Closed instance for C8: a 1000×1000 surface (area 1,000,000 above the
threshold) whose chunked assembly agrees with the source. -/
theorem claim_C8_witness :
    (CloneNode.canvasToDataURLChunked ⟨1000, 1000, fun x y => x + 1000 * y⟩).width = 1000 ∧
    (CloneNode.canvasToDataURLChunked ⟨1000, 1000, fun x y => x + 1000 * y⟩).height = 1000 ∧
    (∀ x y, y < (1000 : Nat) →
      (CloneNode.canvasToDataURLChunked ⟨1000, 1000, fun x y => x + 1000 * y⟩).pix x y =
        x + 1000 * y) ∧
    (∀ y, y < (1000 : Nat) →
      ∃! i, i < CloneNode.totalStrips 1000 ∧ CloneNode.inStrip 1000 i y) :=
  claim_C8 ⟨1000, 1000, fun x y => x + 1000 * y⟩ (by norm_num)

end HtmlToImage
